import Mathlib

/-!
# DNS message codec of `main.go`: a shallow embedding

Bytes (`byte`), `uint16`, `uint32` and `int` values are natural numbers; a
byte is a number below 256, a `uint16` a number below 65536.  Where the Go
code truncates (`byte(x)`, byte addition) the truncation is written out
with `%`.  A `[]byte` is a `List Nat` whose capacity equals its length (as
for the slice `sendQuery` allocates with `make([]byte, 1024)`), so that an
index or slice expression past the length panics.  A run-time panic is the
result `Except.error Err.outOfBounds`.

`decodeDNSName` and `decodeCompressedName` call each other without any
bound in the source, so they carry a `fuel` argument: one unit is spent per
loop iteration and per call; `Err.outOfFuel` says the fuel did not suffice.

The network of `sendQuery` is a function `Transport` from the server address,
the domain and the record type to the received buffer (or to the error of
the failing call).  `resolve` loops and calls itself without any bound, so
its loop carries a `fuel` of its own; its `Outcome` records the queries sent,
in order, next to the pair `(string, error)` it returns.  Go strings that
hold names are lists of bytes; record-type mnemonics and server addresses
are `String`s.
-/

namespace DnsWeekend

/-- Ways in which an embedded function does not return a value. -/
inductive Err
  | outOfBounds
  | outOfFuel
  deriving DecidableEq, Repr

/-- Result of a Go function that may panic. -/
abbrev Res (α : Type) := Except Err α

instance decEqRes {α : Type} [DecidableEq α] : DecidableEq (Res α)
  | .ok a, .ok b =>
    if h : a = b then isTrue (congrArg Except.ok h)
    else isFalse (fun h2 => h (Except.ok.inj h2))
  | .error a, .error b =>
    if h : a = b then isTrue (congrArg Except.error h)
    else isFalse (fun h2 => h (Except.error.inj h2))
  | .ok _, .error _ => isFalse (fun h => Except.noConfusion h)
  | .error _, .ok _ => isFalse (fun h => Except.noConfusion h)

/-! ## The program -/

/-- Go index expression `buffer[i]`. -/
def index (buffer : List Nat) (i : Nat) : Res Nat :=
  match buffer[i]? with
  | some b => .ok b
  | none => .error .outOfBounds

/-- Go slice expression `buffer[lo:hi]` (capacity = length). -/
def slice (buffer : List Nat) (lo hi : Nat) : Res (List Nat) :=
  if lo ≤ hi ∧ hi ≤ buffer.length then .ok ((buffer.drop lo).take (hi - lo))
  else .error .outOfBounds

structure DNSHeader where
  ID : Nat
  Flags : Nat
  NumbQuestions : Nat
  NumbAnswers : Nat
  NumAuthority : Nat
  NumAdditional : Nat
  deriving DecidableEq, Repr

structure DNSQuestion where
  QName : List Nat
  QType : Nat
  QClass : Nat
  deriving DecidableEq, Repr

/-- The record type of the source; its field `Type` is `Type_` here. -/
structure DNSRecord where
  Name : List Nat
  Type_ : Nat
  Class : Nat
  TTL : Nat
  Data : List Nat
  deriving DecidableEq, Repr

structure DNSPacket where
  Header : DNSHeader
  questions : List DNSQuestion
  Answers : List DNSRecord
  Authorities : List DNSRecord
  Additional : List DNSRecord
  deriving DecidableEq, Repr

/-- The byte `'.'`. -/
def dot : Nat := 46

/-- Go `strings.Split(name, ".")` on the bytes of `name`. -/
def splitDot : List Nat → List (List Nat)
  | [] => [[]]
  | c :: cs =>
    if c = dot then [] :: splitDot cs
    else
      match splitDot cs with
      | [] => [[c]]
      | p :: ps => (c :: p) :: ps

/-- The body of the `for … range` loop of `encodeDNSName`. -/
def encodeParts : List (List Nat) → List Nat
  | [] => []
  | part :: parts => (part.length % 256) :: part ++ encodeParts parts

def encodeDNSName (name : List Nat) : List Nat :=
  encodeParts (splitDot name) ++ [0]

def dnsTypeMap : List (String × Nat) :=
  [("A", 1), ("NS", 2), ("CNAME", 5), ("SOA", 6), ("PTR", 12), ("MX", 15),
   ("TXT", 16), ("AAAA", 28), ("SRV", 33), ("ANY", 255)]

/-- Go map lookup `dnsTypeMap[recordType]`: the zero value for a missing key. -/
def dnsTypeMapGet (recordType : String) : Nat :=
  (dnsTypeMap.lookup recordType).getD 0

/-- Go `binary.BigEndian.PutUint16` into a fresh 2-byte slice. -/
def putUint16 (v : Nat) : List Nat := [v / 256 % 256, v % 256]

/-- Go `binary.BigEndian.Uint16` of a 2-byte slice. -/
def uint16 (b : List Nat) : Nat := b.getD 0 0 * 256 + b.getD 1 0

/-- Go `binary.BigEndian.Uint32` of a 4-byte slice. -/
def uint32 (b : List Nat) : Nat :=
  b.getD 0 0 * 16777216 + b.getD 1 0 * 65536 + b.getD 2 0 * 256 + b.getD 3 0

def headerToBytes (header : DNSHeader) : List Nat :=
  putUint16 header.ID ++ putUint16 header.Flags ++ putUint16 header.NumbQuestions ++
    putUint16 header.NumbAnswers ++ putUint16 header.NumAuthority ++
    putUint16 header.NumAdditional

def questionToBytes (question : DNSQuestion) : List Nat :=
  question.QName ++ putUint16 question.QType ++ putUint16 question.QClass

/-- The source draws `id` with `rand.Intn(65535)`; here it is an argument. -/
def buildQuery (id : Nat) (domainName : List Nat) (recordType : String) : List Nat :=
  let name := encodeDNSName domainName
  let header : DNSHeader := ⟨id % 65536, 0, 1, 0, 0, 0⟩
  let question : DNSQuestion := ⟨name, dnsTypeMapGet recordType, 1⟩
  headerToBytes header ++ questionToBytes question

def parseHeader (buffer : List Nat) : Res DNSHeader := do
  let b0 ← slice buffer 0 2
  let b1 ← slice buffer 2 4
  let b2 ← slice buffer 4 6
  let b3 ← slice buffer 6 8
  let b4 ← slice buffer 8 10
  let b5 ← slice buffer 10 12
  pure ⟨uint16 b0, uint16 b1, uint16 b2, uint16 b3, uint16 b4, uint16 b5⟩

/-- The `for` loop of `decodeDNSNameSimple`; `steps` bounds the iterations
(each one moves `i` forward, so `len(buffer) + 1` steps always suffice). -/
def decodeDNSNameSimpleLoop : Nat → List Nat → List Nat → Nat → Nat → Res (List Nat × Nat)
  | 0, _, _, _, _ => .error .outOfFuel
  | steps + 1, buffer, name, dnsEndMarker, i =>
    if i < buffer.length then
      let length := buffer.getD i 0
      if length = 0 then .ok (name, dnsEndMarker + 1)
      else
        match slice buffer (i + 1) (i + 1 + length) with
        | .ok label =>
          decodeDNSNameSimpleLoop steps buffer (name ++ label ++ [dot])
            (i + (length + 1)) (i + (length + 1))
        | .error e => .error e
    else .ok (name, dnsEndMarker + 1)

def decodeDNSNameSimple (buffer : List Nat) (currentLocation : Nat) : Res (List Nat × Nat) :=
  decodeDNSNameSimpleLoop (buffer.length + 1) buffer [] 0 currentLocation

def decodeQuestionData (buffer : List Nat) (currentLocation : Nat) : Res (Nat × Nat) := do
  let t ← slice buffer currentLocation (currentLocation + 2)
  let c ← slice buffer (currentLocation + 2) (currentLocation + 4)
  pure (uint16 t, uint16 c)

def parseQuestion (buffer : List Nat) (currentLocation : Nat) : Res (DNSQuestion × Nat) := do
  let (qName, dnsEndMarker) ← decodeDNSNameSimple buffer currentLocation
  let (qType, qClass) ← decodeQuestionData buffer dnsEndMarker
  pure (⟨qName, qType, qClass⟩, dnsEndMarker + 4)

mutual
/-- The `for` loop of `decodeDNSName`, from the state `(name, dnsEndMarker, i)`. -/
def decodeDNSNameLoop : Nat → List Nat → List Nat → Nat → Nat → Res (List Nat × Nat)
  | 0, _, _, _, _ => .error .outOfFuel
  | fuel + 1, buffer, name, dnsEndMarker, i =>
    if i < buffer.length then
      let length := buffer.getD i 0
      if length = 0 then .ok (name, dnsEndMarker)
      else if length ≥ 192 then
        match decodeCompressedName fuel length buffer i with
        | .ok result => .ok (name ++ result, i + 2)
        | .error e => .error e
      else
        match slice buffer (i + 1) (i + 1 + length) with
        | .ok label =>
          decodeDNSNameLoop fuel buffer (name ++ label ++ [dot])
            (i + (length + 1)) (i + (length + 1))
        | .error e => .error e
    else .ok (name, dnsEndMarker)

def decodeCompressedName : Nat → Nat → List Nat → Nat → Res (List Nat)
  | 0, _, _, _ => .error .outOfFuel
  | fuel + 1, length, buffer, currentPosition =>
    match index buffer (currentPosition + 1) with
    | .ok next =>
      let offset := ((length &&& 0x3f) % 256 + next) % 256
      match decodeDNSNameLoop fuel buffer [] 0 offset with
      | .ok (result, _) => .ok result
      | .error e => .error e
    | .error e => .error e
end

def decodeDNSName (fuel : Nat) (buffer : List Nat) (location : Nat) : Res (List Nat × Nat) :=
  decodeDNSNameLoop fuel buffer [] 0 location

def decodeRecordData (buffer : List Nat) : Res (Nat × Nat × Nat × Nat) := do
  let t ← slice buffer 0 2
  let c ← slice buffer 2 4
  let ttl ← slice buffer 4 8
  let l ← slice buffer 8 10
  pure (uint16 t, uint16 c, uint32 ttl, uint16 l)

def parseRecord (fuel : Nat) (buffer : List Nat) (currentLocation : Nat) :
    Res (DNSRecord × Nat) := do
  let (name, dnsEndMarker) ← decodeDNSName fuel buffer currentLocation
  let fixed ← slice buffer dnsEndMarker (dnsEndMarker + 10)
  let (rType, rClass, rTTL, dataLength) ← decodeRecordData fixed
  if rType = dnsTypeMapGet "NS" then
    let (data, _) ← decodeDNSName fuel buffer (dnsEndMarker + 10)
    pure (⟨name, rType, rClass, rTTL, data⟩, dnsEndMarker + 10 + dataLength)
  else
    let data ← slice buffer (dnsEndMarker + 10) (dnsEndMarker + 10 + dataLength)
    pure (⟨name, rType, rClass, rTTL, data⟩, dnsEndMarker + 10 + dataLength)

/-- First loop of `parseDNSPacket`: `n` questions from `currentLocation`. -/
def parseQuestions : Nat → List Nat → Nat → Res (List DNSQuestion × Nat)
  | 0, _, currentLocation => .ok ([], currentLocation)
  | n + 1, buffer, currentLocation => do
    let (question, next) ← parseQuestion buffer currentLocation
    let (questions, last) ← parseQuestions n buffer next
    pure (question :: questions, last)

/-- Second loop of `parseDNSPacket`: `currentLocation += length + 1`. -/
def parseAnswers (fuel : Nat) : Nat → List Nat → Nat → Res (List DNSRecord × Nat)
  | 0, _, currentLocation => .ok ([], currentLocation)
  | n + 1, buffer, currentLocation => do
    let (answer, length) ← parseRecord fuel buffer currentLocation
    let (answers, last) ← parseAnswers fuel n buffer (currentLocation + (length + 1))
    pure (answer :: answers, last)

/-- Third and fourth loop of `parseDNSPacket`: `currentLocation` is assigned
the offset `parseRecord` returns. -/
def parseRecords (fuel : Nat) : Nat → List Nat → Nat → Res (List DNSRecord × Nat)
  | 0, _, currentLocation => .ok ([], currentLocation)
  | n + 1, buffer, currentLocation => do
    let (record, next) ← parseRecord fuel buffer currentLocation
    let (records, last) ← parseRecords fuel n buffer next
    pure (record :: records, last)

def parseDNSPacket (fuel : Nat) (buffer : List Nat) : Res DNSPacket := do
  let headerBytes ← slice buffer 0 12
  let header ← parseHeader headerBytes
  let (questions, l1) ← parseQuestions header.NumbQuestions buffer 12
  let (answers, l2) ← parseAnswers fuel header.NumbAnswers buffer l1
  let (authorities, l3) ← parseRecords fuel header.NumAuthority buffer l2
  let (additionals, _) ← parseRecords fuel header.NumAdditional buffer l3
  pure ⟨header, questions, answers, authorities, additionals⟩

def ipToString (ip : List Nat) : Res String := do
  let a ← index ip 0
  let b ← index ip 1
  let c ← index ip 2
  let d ← index ip 3
  pure (toString a ++ "." ++ toString b ++ "." ++ toString c ++ "." ++ toString d)

/-- The `for … range` loop of `getAnswer`, and the final `return ""`. -/
def getAnswerLoop : List DNSRecord → Res String
  | [] => .ok ""
  | record :: records =>
    if record.Type_ = dnsTypeMapGet "A" then ipToString record.Data
    else getAnswerLoop records

def getAnswer (dnsPacket : DNSPacket) : Res String :=
  getAnswerLoop dnsPacket.Answers

/-- The `for … range` loop of `getNameServerIP`, and the final `return ""`. -/
def getNameServerIPLoop : List DNSRecord → Res String
  | [] => .ok ""
  | record :: records =>
    if record.Type_ = dnsTypeMapGet "A" then ipToString record.Data
    else getNameServerIPLoop records

def getNameServerIP (dnsPacket : DNSPacket) : Res String :=
  getNameServerIPLoop dnsPacket.Additional

/-- The `for … range` loop of `getNameServer`, and the final `return ""`; the
string is the list of its bytes. -/
def getNameServerLoop : List DNSRecord → List Nat
  | [] => []
  | record :: records =>
    if record.Type_ = dnsTypeMapGet "NS" then record.Data
    else getNameServerLoop records

def getNameServer (dnsPacket : DNSPacket) : List Nat :=
  getNameServerLoop dnsPacket.Authorities

/-- A Go `error` value returned by `sendQuery` or `resolve`. -/
inductive GoError
  | transport (msg : String)
  | noAnswerFound
  deriving DecidableEq, Repr

/-- A query handed to the network: server address, domain and record type. -/
structure Query where
  server : String
  domain : List Nat
  recordType : String
  deriving DecidableEq, Repr

/-- The UDP exchange of `sendQuery` (`net.Dial`, `Write`, `Read`) as a
function of the server address, the domain and the record type: the error
of the failing call, or the buffer after `conn.Read`. -/
abbrev Transport := String → List Nat → String → Except String (List Nat)

/-- The function `sendQuery`: the pair `(DNSPacket, error)` it returns;
`dfuel` is the fuel of `parseDNSPacket`. -/
def sendQuery (transport : Transport) (dfuel : Nat) (ipAddress : String)
    (domain : List Nat) (recordType : String) : Res (DNSPacket × Option GoError) :=
  match transport ipAddress domain recordType with
  | .error msg => .ok (⟨⟨0, 0, 0, 0, 0, 0⟩, [], [], [], []⟩, some (.transport msg))
  | .ok buffer =>
    match parseDNSPacket dfuel buffer with
    | .ok dnsPacket => .ok (dnsPacket, none)
    | .error e => .error e

/-- Go `strings.TrimSuffix(s, ".")` on the bytes of `s`. -/
def trimSuffixDot (s : List Nat) : List Nat :=
  if s.getLast? = some dot then s.dropLast else s

/-- The address of the root server `resolve` starts from. -/
def rootServer : String := "198.41.0.4"

/-- What a run of `resolve` does: the queries it sends, in order, and the
pair `(string, error)` it returns (or a panic, or the end of the fuel). -/
structure Outcome where
  queries : List Query
  result : Res (String × Option GoError)
  deriving DecidableEq, Repr

/-- The `for` loop of `resolve` from the state `nameServer`; a nested
`resolve(nameServerDomain, "A")` is the same loop started at `rootServer`.
One unit of `fuel` is spent per iteration. -/
def resolveLoop (transport : Transport) (dfuel : Nat) :
    Nat → String → List Nat → String → Outcome
  | 0, _, _, _ => ⟨[], .error .outOfFuel⟩
  | fuel + 1, nameServer, domainName, recordType =>
    let query : Query := ⟨nameServer, domainName, recordType⟩
    match sendQuery transport dfuel nameServer domainName recordType with
    | .error e => ⟨[query], .error e⟩
    | .ok (_, some err) => ⟨[query], .ok ("", some err)⟩
    | .ok (dnsPacket, none) =>
      match getAnswer dnsPacket with
      | .error e => ⟨[query], .error e⟩
      | .ok ip =>
        if ip ≠ "" then ⟨[query], .ok (ip, none)⟩
        else
          match getNameServerIP dnsPacket with
          | .error e => ⟨[query], .error e⟩
          | .ok nameServerIP =>
            if nameServerIP ≠ "" then
              let rest := resolveLoop transport dfuel fuel nameServerIP domainName recordType
              ⟨query :: rest.queries, rest.result⟩
            else if getNameServer dnsPacket ≠ [] then
              let nameServerDomain := trimSuffixDot (getNameServer dnsPacket)
              let nested := resolveLoop transport dfuel fuel rootServer nameServerDomain "A"
              match nested.result with
              | .error e => ⟨query :: nested.queries, .error e⟩
              | .ok (nameServer2, _) =>
                let rest := resolveLoop transport dfuel fuel nameServer2 domainName recordType
                ⟨query :: (nested.queries ++ rest.queries), rest.result⟩
            else ⟨[query], .ok ("", some .noAnswerFound)⟩

def resolve (transport : Transport) (dfuel fuel : Nat) (domainName : List Nat)
    (recordType : String) : Outcome :=
  resolveLoop transport dfuel fuel rootServer domainName recordType

/-! ## Label sequences and sample messages used in the statements -/

/-- The text the decoders produce for a list of labels: each label followed by a dot. -/
def dotted : List (List Nat) → List Nat
  | [] => []
  | l :: ls => l ++ dot :: dotted ls

/-- A textual domain name: the labels joined with dots. -/
def joinDot (labels : List (List Nat)) : List Nat :=
  [dot].intercalate labels

/-- A label as the wire format allows it in a name: 1 to 63 bytes. -/
def validLabel (l : List Nat) : Prop := 1 ≤ l.length ∧ l.length ≤ 63

instance (l : List Nat) : Decidable (validLabel l) := by
  unfold validLabel; infer_instance

/-- A 260-byte message: a pointer `C1 01` at offset 0, the name `a` at
offset 2 and the name `b` at offset 257. -/
def pointerBuffer : List Nat :=
  [0xC1, 0x01, 1, 97, 0] ++ List.replicate 252 0 ++ [1, 98, 0]

/-- A 12-byte message: a header with QDCOUNT = 1 and nothing after it. -/
def headerOnlyBuffer : List Nat := [0, 0, 0, 0, 0, 1, 0, 0, 0, 0, 0, 0]

/-- A 51-byte response with one question (`a`, type A), one answer (a
pointer to the question name, type A, 4 bytes of data) and one authority
(a pointer to the question name, type NS, the name `n.a` as data). -/
def referralBuffer : List Nat :=
  [0x12, 0x34, 0x80, 0x00, 0, 1, 0, 1, 0, 1, 0, 0] ++
  [1, 97, 0, 0, 1, 0, 1] ++
  [0xC0, 12, 0, 1, 0, 1, 0, 0, 0, 60, 0, 4, 1, 2, 3, 4] ++
  [0xC0, 12, 0, 2, 0, 1, 0, 0, 0, 60, 0, 4, 1, 110, 0xC0, 12]

/-- A record at offset 0: the name `a` ended by a zero byte, type A, class 1,
TTL 60 and the 4 data bytes 1, 2, 3, 4. -/
def plainRecordBuffer : List Nat :=
  [1, 97, 0, 0, 1, 0, 1, 0, 0, 0, 60, 0, 4, 1, 2, 3, 4]

/-- A header whose six fields are 16-bit values. -/
def DNSHeader.wf (h : DNSHeader) : Prop :=
  h.ID < 65536 ∧ h.Flags < 65536 ∧ h.NumbQuestions < 65536 ∧ h.NumbAnswers < 65536 ∧
    h.NumAuthority < 65536 ∧ h.NumAdditional < 65536

instance (h : DNSHeader) : Decidable h.wf := by
  unfold DNSHeader.wf; infer_instance

/-- A label as `decodeDNSNameSimple` reads it: any non-zero length byte. -/
def plainLabel (l : List Nat) : Prop := 1 ≤ l.length ∧ l.length ≤ 255

instance (l : List Nat) : Decidable (plainLabel l) := by
  unfold plainLabel; infer_instance

/-- A 21-byte message: a header, the name `a` at offset 12, and at offset 15
a question whose name is the pointer `C0 0C` to offset 12, type 1, class 1. -/
def pointerQuestionBuffer : List Nat :=
  [0, 0, 0, 0, 0, 0, 0, 0, 0, 0, 0, 0] ++ [1, 97, 0] ++ [0xC0, 12, 0, 1, 0, 1]

/-- No length byte of 192 or more is met when the labels are walked from
offset `i`, up to the zero byte, the end of the buffer or a label that runs
past the end; `steps` bounds the walk (`len(buffer) + 1` always suffices). -/
def plainFrom : Nat → List Nat → Nat → Bool
  | 0, _, _ => true
  | steps + 1, buffer, i =>
    if i < buffer.length then
      if buffer.getD i 0 = 0 then true
      else if buffer.getD i 0 ≥ 192 then false
      else if i + 1 + buffer.getD i 0 ≤ buffer.length then
        plainFrom steps buffer (i + (buffer.getD i 0 + 1))
      else true
    else true

/-- A response with counts 1, 1, 0, 0: a header with id `i1 i2` and flags
`f1 f2`, one question (the encoded `domain`, type `q1 q2`, class `k1 k2`), one
answer (name: the pointer `C0 0C` to the question name, type 1, class 1, TTL
`l1 l2 l3 l4`, RDLENGTH 4, RDATA `a b c d`), then `padding`. -/
def answerResponse (i1 i2 f1 f2 : Nat) (domain : List Nat) (q1 q2 k1 k2 : Nat)
    (l1 l2 l3 l4 a b c d : Nat) (padding : List Nat) : List Nat :=
  [i1, i2, f1, f2, 0, 1, 0, 1, 0, 0, 0, 0] ++ encodeDNSName domain ++ [q1, q2, k1, k2] ++
    [0xC0, 0x0C, 0, 1, 0, 1, l1, l2, l3, l4, 0, 4, a, b, c, d] ++ padding

/-- A 34-byte referral for the domain `a`: counts 1, 0, 1, 0, the question,
and one authority of type NS whose data is the name `n` (`01 6E 00`). -/
def nsOnlyResponse : List Nat :=
  [0, 1, 0x80, 0, 0, 1, 0, 0, 0, 1, 0, 0] ++ [1, 97, 0, 0, 1, 0, 1] ++
    [0xC0, 12, 0, 2, 0, 1, 0, 0, 0, 60, 0, 3, 1, 110, 0]

/-- A response with no question and no record: twelve zero bytes. -/
def emptyResponse : List Nat := [0, 0, 0, 0, 0, 0, 0, 0, 0, 0, 0, 0]

/-- A network in which the root server refers the domain `a` to the name
server `n`, has nothing to say about `n`, and the server with the empty
address answers `a` with 1.2.3.4; every other exchange fails. -/
def lostReferralTransport : Transport := fun server domain _ =>
  if server = rootServer ∧ domain = [97] then .ok nsOnlyResponse
  else if server = rootServer ∧ domain = [110] then .ok emptyResponse
  else if server = "" ∧ domain = [97] then
    .ok (answerResponse 0 1 0x80 0 [97] 0 1 0 1 0 0 0 60 1 2 3 4 [])
  else .error "unreachable"

/-- The same network, except that the query to the root server about `n`
fails in the transport. -/
def failedReferralTransport : Transport := fun server domain _ =>
  if server = rootServer ∧ domain = [97] then .ok nsOnlyResponse
  else if server = "" ∧ domain = [97] then
    .ok (answerResponse 0 1 0x80 0 [97] 0 1 0 1 0 0 0 60 1 2 3 4 [])
  else .error "unreachable"

/-- A 50-byte referral with glue for the domain `a`: counts 1, 0, 1, 1, the
question, an authority of type NS with the name `n` as data, and an
additional of type A for that name with the address 198.51.100.7. -/
def glueResponse : List Nat :=
  [0, 1, 0x80, 0, 0, 1, 0, 0, 0, 1, 0, 1] ++ [1, 97, 0, 0, 1, 0, 1] ++
    [0xC0, 12, 0, 2, 0, 1, 0, 0, 0, 60, 0, 3, 1, 110, 0] ++
    [0xC0, 31, 0, 1, 0, 1, 0, 0, 0, 60, 0, 4, 198, 51, 100, 7]

/-- A network in which the root server sends `glueResponse` and every other
server answers with the address 1.2.3.4. -/
def glueTransport : Transport := fun server _ _ =>
  if server = rootServer then .ok glueResponse
  else .ok (answerResponse 0 1 0x80 0 [97] 0 1 0 1 0 0 0 60 1 2 3 4 [])

/-- The offset `decodeCompressedName` computes for the pointer at `p`. -/
def pointerTarget (buffer : List Nat) (p : Nat) : Nat :=
  ((buffer.getD p 0 &&& 0x3f) % 256 + buffer.getD (p + 1) 0) % 256

/-- The 14-bit big-endian offset of the pointer at `p`. -/
def wireTarget (buffer : List Nat) (p : Nat) : Nat :=
  (buffer.getD p 0 &&& 0x3f) * 256 + buffer.getD (p + 1) 0

/-- The offset at which the run of labels that starts at `i` ends: the first
length byte that is zero or a pointer, or the end of the buffer; `steps`
bounds the walk (`len(buffer)` always suffices). -/
def labelsEnd : Nat → List Nat → Nat → Nat
  | 0, _, i => i
  | steps + 1, buffer, i =>
    if i < buffer.length ∧ 0 < buffer.getD i 0 ∧ buffer.getD i 0 < 192 then
      labelsEnd steps buffer (i + (buffer.getD i 0 + 1))
    else i

/-- The list `S` holds offsets of length bytes and pointers of `buffer`, and
with each of them the offset decoding moves to: every label at an offset of
`S` lies inside the buffer and is followed by an offset of `S` (or by the end
of the buffer), every pointer at an offset of `S` has its second byte inside
the buffer and its target, the 14-bit offset, in `S` (or past the end of the
buffer). -/
def nameOffsets (buffer S : List Nat) : Prop :=
  ∀ p ∈ S, p < buffer.length ∧
    (0 < buffer.getD p 0 ∧ buffer.getD p 0 < 192 →
      p + 1 + buffer.getD p 0 ≤ buffer.length ∧
      (p + (buffer.getD p 0 + 1) ∈ S ∨ buffer.length ≤ p + (buffer.getD p 0 + 1))) ∧
    (192 ≤ buffer.getD p 0 →
      p + 1 < buffer.length ∧
      (wireTarget buffer p ∈ S ∨ buffer.length ≤ wireTarget buffer p))

instance (buffer S : List Nat) : Decidable (nameOffsets buffer S) := by
  unfold nameOffsets; infer_instance

/-- The same as `nameOffsets`, with the offset `decodeCompressedName` computes
in the place of the 14-bit offset. -/
def decoderOffsets (buffer S : List Nat) : Prop :=
  ∀ p ∈ S, p < buffer.length ∧
    (0 < buffer.getD p 0 ∧ buffer.getD p 0 < 192 →
      p + 1 + buffer.getD p 0 ≤ buffer.length ∧
      (p + (buffer.getD p 0 + 1) ∈ S ∨ buffer.length ≤ p + (buffer.getD p 0 + 1))) ∧
    (192 ≤ buffer.getD p 0 →
      p + 1 < buffer.length ∧
      (pointerTarget buffer p ∈ S ∨ buffer.length ≤ pointerTarget buffer p))

/-- A 25-byte buffer: a 20-byte label at offset 2 whose bytes at offsets 10
and 11 are `C0 02`, followed at offset 23 by the pointer `C0 0A`. -/
def loopBuffer : List Nat :=
  [0, 0, 20] ++ List.replicate 7 97 ++ [0xC0, 2] ++ List.replicate 11 97 ++ [0xC0, 10]

/-- A network in which the root server refers the domain `a` to the name
server `n`, answers the query for `n` with the address 9.9.9.9, and the
server 9.9.9.9 answers `a` with 1.2.3.4; every other exchange fails. -/
def referralTransport : Transport := fun server domain _ =>
  if server = rootServer ∧ domain = [97] then .ok nsOnlyResponse
  else if server = rootServer ∧ domain = [110] then
    .ok (answerResponse 0 2 0x80 0 [110] 0 1 0 1 0 0 0 60 9 9 9 9 [])
  else if server = "9.9.9.9" ∧ domain = [97] then
    .ok (answerResponse 0 1 0x80 0 [97] 0 1 0 1 0 0 0 60 1 2 3 4 [])
  else .error "unreachable"

/-- A 70-byte response for the domain `a` with counts 1, 2, 0, 0: the
question, at offset 19 an answer of type A with the 3 data bytes 9, 9, 9, and
at offset 54 (where `parseDNSPacket` looks for it) an answer of type A with
the 4 data bytes 1, 2, 3, 4. -/
def shortAnswerResponse : List Nat :=
  [0, 1, 0x80, 0, 0, 1, 0, 2, 0, 0, 0, 0] ++ [1, 97, 0, 0, 1, 0, 1] ++
    [0xC0, 12, 0, 1, 0, 1, 0, 0, 0, 60, 0, 3, 9, 9, 9] ++ List.replicate 20 0 ++
    [0xC0, 12, 0, 1, 0, 1, 0, 0, 0, 60, 0, 4, 1, 2, 3, 4]

/-- A 72-byte response for the domain `a` with counts 1, 1, 0, 1: the
question, at offset 19 an answer of type A with the 5 data bytes 9, 9, 9, 9,
5, and at offset 56 (where `parseDNSPacket` looks for it) an additional of
type A with the 4 data bytes 7, 7, 7, 7. -/
def longAnswerResponse : List Nat :=
  [0, 1, 0x80, 0, 0, 1, 0, 1, 0, 0, 0, 1] ++ [1, 97, 0, 0, 1, 0, 1] ++
    [0xC0, 12, 0, 1, 0, 1, 0, 0, 0, 60, 0, 5, 9, 9, 9, 9, 5] ++ List.replicate 20 0 ++
    [0xC0, 12, 0, 1, 0, 1, 0, 0, 0, 60, 0, 4, 7, 7, 7, 7]

/-- A network in which every server sends `shortAnswerResponse`. -/
def shortAnswerTransport : Transport := fun _ _ _ => .ok shortAnswerResponse

/-- A network in which every server sends `longAnswerResponse`. -/
def longAnswerTransport : Transport := fun _ _ _ => .ok longAnswerResponse

/-- A record of type NS at offset 0 whose owner name `a` ends in a zero byte:
type 2, class 1, TTL 256, RDLENGTH 3 in the bytes 3 to 12, then the name `x`
as data; the fixed fields end at offset 13, the record at 16. -/
def nsPlainBuffer : List Nat := [1, 97, 0, 0, 2, 0, 1, 0, 0, 1, 0, 0, 3, 1, 120, 0]

/-- A record of type A at offset 0 whose owner name `a` ends in a zero byte:
type 1, class 1, TTL 256, RDLENGTH 4 in the bytes 3 to 12, then the data
1, 2, 3, 4; the fixed fields end at offset 13, the record at 17. -/
def aPlainBuffer : List Nat := [1, 97, 0, 0, 1, 0, 1, 0, 0, 1, 0, 0, 4, 1, 2, 3, 4]

/-! ## Fuel: more fuel never changes a result -/

theorem decodeDNSNameLoop_succ (fuel : Nat) (buffer name : List Nat) (m i : Nat) :
    decodeDNSNameLoop (fuel + 1) buffer name m i =
      if i < buffer.length then
        if buffer.getD i 0 = 0 then .ok (name, m)
        else if buffer.getD i 0 ≥ 192 then
          match decodeCompressedName fuel (buffer.getD i 0) buffer i with
          | .ok result => .ok (name ++ result, i + 2)
          | .error e => .error e
        else
          match slice buffer (i + 1) (i + 1 + buffer.getD i 0) with
          | .ok label =>
            decodeDNSNameLoop fuel buffer (name ++ label ++ [dot])
              (i + (buffer.getD i 0 + 1)) (i + (buffer.getD i 0 + 1))
          | .error e => .error e
      else .ok (name, m) := by
  rw [decodeDNSNameLoop]

theorem decodeCompressedName_succ (fuel length : Nat) (buffer : List Nat) (p : Nat) :
    decodeCompressedName (fuel + 1) length buffer p =
      match index buffer (p + 1) with
      | .ok next =>
        match decodeDNSNameLoop fuel buffer [] 0 (((length &&& 0x3f) % 256 + next) % 256) with
        | .ok (result, _) => .ok result
        | .error e => .error e
      | .error e => .error e := by
  rw [decodeCompressedName]

theorem decode_fuel_succ (fuel : Nat) :
    (∀ buffer name m i x, decodeDNSNameLoop fuel buffer name m i = x → x ≠ .error .outOfFuel →
        decodeDNSNameLoop (fuel + 1) buffer name m i = x) ∧
    (∀ length buffer p x, decodeCompressedName fuel length buffer p = x → x ≠ .error .outOfFuel →
        decodeCompressedName (fuel + 1) length buffer p = x) := by
  induction fuel with
  | zero =>
    constructor
    · intro buffer name m i x h hx
      rw [decodeDNSNameLoop] at h
      exact absurd h.symm hx
    · intro length buffer p x h hx
      rw [decodeCompressedName] at h
      exact absurd h.symm hx
  | succ n ih =>
    obtain ⟨ihL, ihC⟩ := ih
    constructor
    · intro buffer name m i x h hx
      rw [decodeDNSNameLoop_succ] at h ⊢
      split_ifs at h ⊢ with h1 h2 h3
      · exact h
      · cases hc : decodeCompressedName n (buffer.getD i 0) buffer i with
        | error e =>
          rw [hc] at h
          have : e ≠ .outOfFuel := by
            intro he; subst he; exact hx h.symm
          rw [ihC _ _ _ _ hc (by simpa using this)]
          exact h
        | ok r =>
          rw [hc] at h
          rw [ihC _ _ _ _ hc (by simp)]
          exact h
      · cases hs : slice buffer (i + 1) (i + 1 + buffer.getD i 0) with
        | error e => rw [hs] at h; exact h
        | ok label =>
          rw [hs] at h
          exact ihL _ _ _ _ _ h hx
      · exact h
    · intro length buffer p x h hx
      rw [decodeCompressedName_succ] at h ⊢
      cases hi : index buffer (p + 1) with
      | error e => rw [hi] at h; exact h
      | ok next =>
        rw [hi] at h
        simp only at h ⊢
        cases hd : decodeDNSNameLoop n buffer [] 0 (((length &&& 0x3f) % 256 + next) % 256) with
        | error e =>
          rw [hd] at h
          have : e ≠ .outOfFuel := by
            intro he; subst he; exact hx h.symm
          rw [ihL _ _ _ _ _ hd (by simpa using this)]
          exact h
        | ok r =>
          rw [hd] at h
          rw [ihL _ _ _ _ _ hd (by simp)]
          exact h

theorem decodeDNSNameLoop_mono {fuel : Nat} {buffer name : List Nat} {m i : Nat}
    {x : Res (List Nat × Nat)} (h : decodeDNSNameLoop fuel buffer name m i = x)
    (hx : x ≠ .error .outOfFuel) (fuel2 : Nat) (hle : fuel ≤ fuel2) :
    decodeDNSNameLoop fuel2 buffer name m i = x := by
  induction fuel2 with
  | zero =>
    have : fuel = 0 := by omega
    subst this; exact h
  | succ n ih =>
    by_cases hn : fuel ≤ n
    · exact (decode_fuel_succ n).1 _ _ _ _ _ (ih hn) hx
    · have : fuel = n + 1 := by omega
      subst this; exact h

theorem decodeDNSName_mono {fuel : Nat} {buffer : List Nat} {location : Nat}
    {x : Res (List Nat × Nat)} (h : decodeDNSName fuel buffer location = x)
    (hx : x ≠ .error .outOfFuel) (fuel2 : Nat) (hle : fuel ≤ fuel2) :
    decodeDNSName fuel2 buffer location = x :=
  decodeDNSNameLoop_mono h hx fuel2 hle

theorem decodeCompressedName_mono {fuel length : Nat} {buffer : List Nat} {p : Nat}
    {x : Res (List Nat)} (h : decodeCompressedName fuel length buffer p = x)
    (hx : x ≠ .error .outOfFuel) (fuel2 : Nat) (hle : fuel ≤ fuel2) :
    decodeCompressedName fuel2 length buffer p = x := by
  induction fuel2 with
  | zero =>
    have : fuel = 0 := by omega
    subst this; exact h
  | succ n ih =>
    by_cases hn : fuel ≤ n
    · exact (decode_fuel_succ n).2 _ _ _ _ (ih hn) hx
    · have : fuel = n + 1 := by omega
      subst this; exact h

/-- Two runs that both return agree, whatever their fuel. -/
theorem decodeDNSName_det {f1 f2 : Nat} {buffer : List Nat} {location : Nat}
    {r1 r2 : List Nat × Nat} (h1 : decodeDNSName f1 buffer location = .ok r1)
    (h2 : decodeDNSName f2 buffer location = .ok r2) : r1 = r2 := by
  have a := decodeDNSName_mono h1 (by simp) (f1 + f2) (by omega)
  have b := decodeDNSName_mono h2 (by simp) (f1 + f2) (by omega)
  rw [a] at b
  exact Except.ok.inj b

theorem decodeCompressedName_det {f1 f2 length : Nat} {buffer : List Nat} {p : Nat}
    {r1 r2 : List Nat} (h1 : decodeCompressedName f1 length buffer p = .ok r1)
    (h2 : decodeCompressedName f2 length buffer p = .ok r2) : r1 = r2 := by
  have a := decodeCompressedName_mono h1 (by simp) (f1 + f2) (by omega)
  have b := decodeCompressedName_mono h2 (by simp) (f1 + f2) (by omega)
  rw [a] at b
  exact Except.ok.inj b

/-! ## Lists: reading the middle of a buffer -/

theorem getD_mid (pre post : List Nat) (x : Nat) :
    (pre ++ x :: post).getD pre.length 0 = x := by
  rw [List.getD_eq_getElem?_getD, List.getElem?_append_right (Nat.le_refl _)]
  simp

theorem slice_mid (pre l post : List Nat) :
    slice (pre ++ l ++ post) pre.length (pre.length + l.length) = .ok l := by
  simp [slice]

theorem slice_mid_cons (pre l post : List Nat) (x : Nat) :
    slice (pre ++ x :: (l ++ post)) (pre.length + 1) (pre.length + 1 + l.length) = .ok l := by
  have := slice_mid (pre ++ [x]) l post
  simpa using this

theorem index_of_getElem? {buffer : List Nat} {i b : Nat} (h : buffer[i]? = some b) :
    index buffer i = .ok b := by
  simp [index, h]

theorem getD_of_getElem? {buffer : List Nat} {i b : Nat} (h : buffer[i]? = some b) :
    buffer.getD i 0 = b := by
  simp [List.getD_eq_getElem?_getD, h]

theorem lt_length_of_getElem? {buffer : List Nat} {i b : Nat} (h : buffer[i]? = some b) :
    i < buffer.length := by
  by_contra hc
  rw [List.getElem?_eq_none (by omega)] at h
  exact Option.noConfusion h

theorem uint16_putUint16 (v : Nat) (hv : v < 65536) : uint16 (putUint16 v) = v := by
  simp only [uint16, putUint16, List.getD_cons_zero, List.getD_cons_succ]
  omega

theorem slice_ok {buffer : List Nat} {lo hi : Nat} (h1 : lo ≤ hi) (h2 : hi ≤ buffer.length) :
    slice buffer lo hi = .ok ((buffer.drop lo).take (hi - lo)) := by
  simp [slice, h1, h2]

/-! ## Names: splitting, encoding and decoding label sequences -/

theorem splitDot_ne_nil (cs : List Nat) : splitDot cs ≠ [] := by
  induction cs with
  | nil => simp [splitDot]
  | cons c cs ih =>
    rw [splitDot]
    split_ifs
    · simp
    · split <;> simp

theorem splitDot_label (l : List Nat) (hl : dot ∉ l) : splitDot l = [l] := by
  induction l with
  | nil => rfl
  | cons c cs ih =>
    have hc : c ≠ dot := fun h => hl (by simp [h])
    have hcs : dot ∉ cs := fun h => hl (by simp [h])
    rw [splitDot, if_neg hc, ih hcs]

theorem splitDot_label_dot (l rest : List Nat) (hl : dot ∉ l) :
    splitDot (l ++ dot :: rest) = l :: splitDot rest := by
  induction l with
  | nil => simp [splitDot]
  | cons c cs ih =>
    have hc : c ≠ dot := fun h => hl (by simp [h])
    have hcs : dot ∉ cs := fun h => hl (by simp [h])
    rw [List.cons_append, splitDot, if_neg hc, ih hcs]

theorem joinDot_cons_cons (l l2 : List Nat) (ls : List (List Nat)) :
    joinDot (l :: l2 :: ls) = l ++ dot :: joinDot (l2 :: ls) := by
  simp [joinDot, List.intercalate]

theorem joinDot_single (l : List Nat) : joinDot [l] = l := by
  simp [joinDot, List.intercalate]

theorem splitDot_joinDot (labels : List (List Nat)) (hne : labels ≠ [])
    (hdot : ∀ l ∈ labels, dot ∉ l) : splitDot (joinDot labels) = labels := by
  induction labels with
  | nil => exact absurd rfl hne
  | cons l ls ih =>
    cases ls with
    | nil => rw [joinDot_single]; exact splitDot_label l (hdot l (by simp))
    | cons l2 ls2 =>
      rw [joinDot_cons_cons, splitDot_label_dot l _ (hdot l (by simp)),
        ih (by simp) (fun x hx => hdot x (by simp [hx]))]

theorem dotted_eq_joinDot (labels : List (List Nat)) (hne : labels ≠ []) :
    dotted labels = joinDot labels ++ [dot] := by
  induction labels with
  | nil => exact absurd rfl hne
  | cons l ls ih =>
    cases ls with
    | nil => simp [dotted, joinDot_single]
    | cons l2 ls2 =>
      rw [joinDot_cons_cons, dotted, ih (by simp)]
      simp

theorem length_encodeParts_joinDot (labels : List (List Nat)) (hne : labels ≠ []) :
    (encodeParts labels).length = (joinDot labels).length + 1 := by
  induction labels with
  | nil => exact absurd rfl hne
  | cons l ls ih =>
    cases ls with
    | nil => simp [encodeParts, joinDot_single]
    | cons l2 ls2 =>
      rw [joinDot_cons_cons, encodeParts]
      have := ih (by simp)
      simp only [List.length_cons, List.length_append] at this ⊢
      omega

/-- The loop of `decodeDNSName` over a buffer that holds the labels `ls`
followed by a zero byte, started at the first length byte. -/
theorem decodeDNSNameLoop_labels (ls : List (List Nat)) :
    ∀ (pre post name : List Nat) (m fuel : Nat), (∀ l ∈ ls, validLabel l) →
      ls.length + 1 ≤ fuel →
      decodeDNSNameLoop fuel (pre ++ encodeParts ls ++ 0 :: post) name m pre.length =
        .ok (name ++ dotted ls,
          if ls = [] then m else pre.length + (encodeParts ls).length) := by
  induction ls with
  | nil =>
    intro pre post name m fuel _ hf
    obtain ⟨n, rfl⟩ : ∃ n, fuel = n + 1 := ⟨fuel - 1, by simp at hf; omega⟩
    have hb : pre ++ encodeParts [] ++ 0 :: post = pre ++ 0 :: post := by simp [encodeParts]
    rw [decodeDNSNameLoop_succ, hb, getD_mid]
    simp [dotted]
  | cons l ls ih =>
    intro pre post name m fuel hv hf
    obtain ⟨n, rfl⟩ : ∃ n, fuel = n + 1 := ⟨fuel - 1, by simp at hf; omega⟩
    obtain ⟨h1, h63⟩ := hv l (by simp)
    have hlen : l.length % 256 = l.length := Nat.mod_eq_of_lt (by omega)
    have hbuf : pre ++ encodeParts (l :: ls) ++ 0 :: post =
        pre ++ l.length :: (l ++ (encodeParts ls ++ 0 :: post)) := by
      simp [encodeParts, hlen]
    have hbuf2 : pre ++ encodeParts (l :: ls) ++ 0 :: post =
        (pre ++ l.length :: l) ++ encodeParts ls ++ 0 :: post := by
      simp [encodeParts, hlen]
    rw [decodeDNSNameLoop_succ]
    have hg : (pre ++ encodeParts (l :: ls) ++ 0 :: post).getD pre.length 0 = l.length := by
      rw [hbuf]; exact getD_mid _ _ _
    have hs : slice (pre ++ encodeParts (l :: ls) ++ 0 :: post) (pre.length + 1)
        (pre.length + 1 + l.length) = .ok l := by
      rw [hbuf]; exact slice_mid_cons _ _ _ _
    have hlt : pre.length < (pre ++ encodeParts (l :: ls) ++ 0 :: post).length := by
      rw [hbuf]; simp
    rw [if_pos hlt, hg, if_neg (by omega), if_neg (by omega), hs]
    simp only
    have hi : pre.length + (l.length + 1) = (pre ++ l.length :: l).length := by simp
    rw [hi, hbuf2, ih (pre ++ l.length :: l) post _ _ n
      (fun x hx => hv x (by simp [hx])) (by simp at hf; omega)]
    simp only [dotted, encodeParts, hlen, List.append_assoc, List.singleton_append,
      List.length_append, List.length_cons, reduceCtorEq, if_false]
    congr 2
    cases ls with
    | nil => simp [encodeParts]
    | cons a b => simp only [reduceCtorEq, if_false]; omega

theorem length_encodeParts_splitDot (name : List Nat) :
    (encodeParts (splitDot name)).length = name.length + 1 := by
  induction name with
  | nil => simp [splitDot, encodeParts]
  | cons c cs ih =>
    rw [splitDot]
    split_ifs with hc
    · simp only [encodeParts, List.length_cons, List.length_append, List.length_nil] at ih ⊢
      omega
    · cases hs : splitDot cs with
      | nil => exact absurd hs (splitDot_ne_nil cs)
      | cons p ps =>
        rw [hs] at ih
        simp only [encodeParts, List.length_cons, List.length_append] at ih ⊢
        omega

theorem length_encodeDNSName (name : List Nat) :
    (encodeDNSName name).length = name.length + 2 := by
  simp [encodeDNSName, length_encodeParts_splitDot]

theorem dnsTypeMapGet_of_mem {recordType : String} {code : Nat}
    (h : (recordType, code) ∈ dnsTypeMap) :
    dnsTypeMapGet recordType = code ∧ code < 256 := by
  simp only [dnsTypeMap, List.mem_cons, Prod.mk.injEq, List.mem_singleton, List.not_mem_nil,
    or_false] at h
  rcases h with h | h | h | h | h | h | h | h | h | h <;>
    (obtain ⟨rfl, rfl⟩ := h; exact ⟨by decide, by decide⟩)

/-! ## The simple decoder on label sequences -/

theorem decodeDNSNameSimpleLoop_succ (steps : Nat) (buffer name : List Nat) (m i : Nat) :
    decodeDNSNameSimpleLoop (steps + 1) buffer name m i =
      if i < buffer.length then
        if buffer.getD i 0 = 0 then .ok (name, m + 1)
        else
          match slice buffer (i + 1) (i + 1 + buffer.getD i 0) with
          | .ok label =>
            decodeDNSNameSimpleLoop steps buffer (name ++ label ++ [dot])
              (i + (buffer.getD i 0 + 1)) (i + (buffer.getD i 0 + 1))
          | .error e => .error e
      else .ok (name, m + 1) := by
  rw [decodeDNSNameSimpleLoop]

/-- The loop of `decodeDNSNameSimple` over a buffer that holds the labels `ls`
followed by a zero byte, started at the first length byte. -/
theorem decodeDNSNameSimpleLoop_labels (ls : List (List Nat)) :
    ∀ (pre post name : List Nat) (m steps : Nat), (∀ l ∈ ls, plainLabel l) →
      ls.length + 1 ≤ steps →
      decodeDNSNameSimpleLoop steps (pre ++ encodeParts ls ++ 0 :: post) name m pre.length =
        .ok (name ++ dotted ls,
          (if ls = [] then m else pre.length + (encodeParts ls).length) + 1) := by
  induction ls with
  | nil =>
    intro pre post name m steps _ hf
    obtain ⟨n, rfl⟩ : ∃ n, steps = n + 1 := ⟨steps - 1, by simp at hf; omega⟩
    have hb : pre ++ encodeParts [] ++ 0 :: post = pre ++ 0 :: post := by simp [encodeParts]
    rw [decodeDNSNameSimpleLoop_succ, hb, getD_mid]
    simp [dotted]
  | cons l ls ih =>
    intro pre post name m steps hv hf
    obtain ⟨n, rfl⟩ : ∃ n, steps = n + 1 := ⟨steps - 1, by simp at hf; omega⟩
    obtain ⟨h1, h255⟩ := hv l (by simp)
    have hlen : l.length % 256 = l.length := Nat.mod_eq_of_lt (by omega)
    have hbuf : pre ++ encodeParts (l :: ls) ++ 0 :: post =
        pre ++ l.length :: (l ++ (encodeParts ls ++ 0 :: post)) := by
      simp [encodeParts, hlen]
    have hbuf2 : pre ++ encodeParts (l :: ls) ++ 0 :: post =
        (pre ++ l.length :: l) ++ encodeParts ls ++ 0 :: post := by
      simp [encodeParts, hlen]
    rw [decodeDNSNameSimpleLoop_succ]
    have hg : (pre ++ encodeParts (l :: ls) ++ 0 :: post).getD pre.length 0 = l.length := by
      rw [hbuf]; exact getD_mid _ _ _
    have hs : slice (pre ++ encodeParts (l :: ls) ++ 0 :: post) (pre.length + 1)
        (pre.length + 1 + l.length) = .ok l := by
      rw [hbuf]; exact slice_mid_cons _ _ _ _
    have hlt : pre.length < (pre ++ encodeParts (l :: ls) ++ 0 :: post).length := by
      rw [hbuf]; simp
    rw [if_pos hlt, hg, if_neg (by omega), hs]
    simp only
    have hi : pre.length + (l.length + 1) = (pre ++ l.length :: l).length := by simp
    rw [hi, hbuf2, ih (pre ++ l.length :: l) post _ _ n
      (fun x hx => hv x (by simp [hx])) (by simp at hf; omega)]
    simp only [dotted, encodeParts, hlen, List.append_assoc, List.singleton_append,
      List.length_append, List.length_cons, reduceCtorEq, if_false]
    congr 2
    cases ls with
    | nil => simp [encodeParts]
    | cons a b => simp only [reduceCtorEq, if_false]; omega

theorem length_encodeParts_ge (ls : List (List Nat)) : ls.length ≤ (encodeParts ls).length := by
  induction ls with
  | nil => simp
  | cons l ls ih => simp only [encodeParts, List.length_cons, List.length_append]; omega

/-- `decodeDNSNameSimple` on a name of one or more labels ended by a zero byte. -/
theorem decodeDNSNameSimple_labels (pre post : List Nat) (ls : List (List Nat))
    (hne : ls ≠ []) (hv : ∀ l ∈ ls, plainLabel l) :
    decodeDNSNameSimple (pre ++ encodeParts ls ++ 0 :: post) pre.length =
      .ok (dotted ls, pre.length + (encodeParts ls).length + 1) := by
  have hsteps : ls.length + 1 ≤ (pre ++ encodeParts ls ++ 0 :: post).length + 1 := by
    have := length_encodeParts_ge ls
    simp only [List.length_append, List.length_cons]
    omega
  rw [decodeDNSNameSimple, decodeDNSNameSimpleLoop_labels ls pre post [] 0 _ hv hsteps]
  simp [hne]

theorem slice_error {buffer : List Nat} {lo hi : Nat} (h : buffer.length < hi) :
    slice buffer lo hi = .error .outOfBounds := by
  simp only [slice]
  rw [if_neg (by omega)]

/-- The loop of `decodeDNSNameSimple` on a buffer that ends inside a question
(`cut` is a proper prefix of the labels `ls`, the zero byte and the four bytes
of type and class): it fails, or it returns an offset that leaves fewer than
four bytes. -/
theorem decodeDNSNameSimpleLoop_cut (ls : List (List Nat)) :
    ∀ (pre cut rest tail name : List Nat) (m steps : Nat), (∀ l ∈ ls, plainLabel l) →
      tail.length = 4 → rest ≠ [] → cut ++ rest = encodeParts ls ++ 0 :: tail →
      (m = pre.length ∨ (cut ≠ [] ∧ ls ≠ [])) → cut.length + 1 ≤ steps →
      decodeDNSNameSimpleLoop steps (pre ++ cut) name m pre.length = .error .outOfBounds ∨
      ∃ nm e, decodeDNSNameSimpleLoop steps (pre ++ cut) name m pre.length = .ok (nm, e) ∧
        (pre ++ cut).length < e + 4 := by
  induction ls with
  | nil =>
    intro pre cut rest tail name m steps _ ht hrest hcut hm hs
    obtain ⟨n, rfl⟩ : ∃ n, steps = n + 1 := ⟨steps - 1, by omega⟩
    have hm2 : m = pre.length := by
      rcases hm with h | ⟨_, h⟩
      · exact h
      · exact absurd rfl h
    have hlen : cut.length + rest.length = 5 := by
      have := congrArg List.length hcut
      simp only [encodeParts, List.nil_append, List.length_append, List.length_cons, ht] at this
      exact this
    have hr : 0 < rest.length := List.length_pos.mpr hrest
    right
    rw [decodeDNSNameSimpleLoop_succ]
    cases cut with
    | nil =>
      refine ⟨name, m + 1, ?_, ?_⟩
      · simp
      · simp; omega
    | cons c cs =>
      have hc : c = 0 := by
        simp only [encodeParts, List.nil_append, List.cons_append, List.cons.injEq] at hcut
        exact hcut.1
      subst hc
      refine ⟨name, m + 1, ?_, ?_⟩
      · rw [getD_mid]; simp
      · simp only [List.length_append, List.length_cons] at hlen ⊢; omega
  | cons l ls ih =>
    intro pre cut rest tail name m steps hv ht hrest hcut hm hs
    obtain ⟨n, rfl⟩ : ∃ n, steps = n + 1 := ⟨steps - 1, by omega⟩
    obtain ⟨h1, h255⟩ := hv l (by simp)
    have hlen : l.length % 256 = l.length := Nat.mod_eq_of_lt (by omega)
    rw [decodeDNSNameSimpleLoop_succ]
    cases cut with
    | nil =>
      have hm2 : m = pre.length := by
        rcases hm with h | ⟨h, _⟩
        · exact h
        · exact absurd rfl h
      right
      refine ⟨name, m + 1, ?_, ?_⟩
      · simp
      · simp; omega
    | cons c cs =>
      simp only [encodeParts, hlen, List.cons_append, List.cons.injEq] at hcut
      obtain ⟨hc, hcs⟩ := hcut
      subst hc
      have hlt : pre.length < (pre ++ l.length :: cs).length := by simp
      rw [if_pos hlt, getD_mid, if_neg (by omega)]
      rw [List.append_assoc] at hcs
      have hsplit : (∃ c2, cs = l ++ c2 ∧ c2 ++ rest = encodeParts ls ++ 0 :: tail) ∨
          cs.length < l.length := by
        rcases List.append_eq_append_iff.mp hcs with ⟨a, ha, ha2⟩ | ⟨c2, hc2, hrest2⟩
        · by_cases hae : a = []
          · subst hae
            left
            exact ⟨[], by simpa using ha.symm, by simpa using ha2⟩
          · right
            have hal : 0 < a.length := List.length_pos.mpr hae
            rw [ha]; simp only [List.length_append]; omega
        · left
          exact ⟨c2, hc2, hrest2.symm⟩
      rcases hsplit with ⟨c2, hc2, hrest2⟩ | hshort
      · -- the whole label is in the buffer
        subst hc2
        rw [slice_mid_cons]
        simp only
        have hi : pre.length + (l.length + 1) = (pre ++ l.length :: l).length := by simp
        have hb2 : pre ++ l.length :: (l ++ c2) = (pre ++ l.length :: l) ++ c2 := by simp
        rw [hi, hb2]
        exact ih (pre ++ l.length :: l) c2 rest tail _ _ n
          (fun x hx => hv x (by simp [hx])) ht hrest hrest2 (Or.inl rfl)
          (by simp only [List.length_append, List.length_cons] at hs; omega)
      · -- the buffer ends inside the label
        left
        rw [slice_error (by simp only [List.length_append, List.length_cons]; omega)]

theorem parseQuestion_cut (hdr cut rest tail : List Nat) (ls : List (List Nat))
    (hne : ls ≠ []) (hv : ∀ l ∈ ls, plainLabel l) (ht : tail.length = 4) (hc : cut ≠ [])
    (hrest : rest ≠ []) (hcut : cut ++ rest = encodeParts ls ++ 0 :: tail) :
    parseQuestion (hdr ++ cut) hdr.length = .error .outOfBounds := by
  have h := decodeDNSNameSimpleLoop_cut ls hdr cut rest tail [] 0 ((hdr ++ cut).length + 1)
    hv ht hrest hcut (Or.inr ⟨hc, hne⟩) (by simp only [List.length_append]; omega)
  rcases h with h | ⟨nm, e, h, he⟩
  · simp only [parseQuestion, decodeDNSNameSimple, h, bind, Except.bind]
  · simp only [parseQuestion, decodeDNSNameSimple, h, bind, Except.bind, decodeQuestionData]
    by_cases h2 : (hdr ++ cut).length < e + 2
    · rw [slice_error h2]
    · rw [slice_ok (by omega) (by omega), slice_error he]

/-- The step bound of `decodeDNSNameSimple` is never reached: its loop ends by
itself, as in the source. -/
theorem decodeDNSNameSimpleLoop_total (steps : Nat) :
    ∀ (buffer name : List Nat) (m i : Nat), 1 ≤ steps → buffer.length + 1 ≤ steps + i →
      decodeDNSNameSimpleLoop steps buffer name m i ≠ .error .outOfFuel := by
  induction steps with
  | zero => intro _ _ _ _ h; omega
  | succ n ih =>
    intro buffer name m i _ hb
    rw [decodeDNSNameSimpleLoop_succ]
    split_ifs with h1 h2
    · simp
    · by_cases hs : i + 1 + buffer.getD i 0 ≤ buffer.length
      · rw [slice_ok (by omega) hs]
        exact ih _ _ _ _ (by omega) (by omega)
      · rw [slice_error (by omega)]
        simp
    · simp

theorem decodeDNSNameSimple_total (buffer : List Nat) (currentLocation : Nat) :
    decodeDNSNameSimple buffer currentLocation ≠ .error .outOfFuel :=
  decodeDNSNameSimpleLoop_total _ _ _ _ _ (by omega) (by omega)

/-! ## Pointers and questions: lemmas shared by several statements -/

/-- A pointer with first byte `C0` and second byte `t` decodes to the name at `t`. -/
theorem decodeDNSName_pointer_C0 (buffer N : List Nat) (t q o fuel fuel2 : Nat)
    (ht : t ≤ 255) (hN : decodeDNSName fuel buffer t = .ok (N, o))
    (hq : buffer[q]? = some 0xC0) (hq1 : buffer[q + 1]? = some t)
    (hf : fuel + 2 ≤ fuel2) :
    decodeDNSName fuel2 buffer q = .ok (N, q + 2) := by
  have hc : decodeCompressedName (fuel + 1) 0xC0 buffer q = .ok N := by
    rw [decodeCompressedName_succ, index_of_getElem? hq1]
    have ho : ((0xC0 &&& 0x3f) % 256 + t) % 256 = t := by
      have : (0xC0 &&& 0x3f) = 0 := by decide
      rw [this]; omega
    simp only [ho]
    rw [decodeDNSName] at hN
    rw [hN]
  have h2 : decodeDNSName (fuel + 2) buffer q = .ok (N, q + 2) := by
    rw [decodeDNSName, decodeDNSNameLoop_succ, if_pos (lt_length_of_getElem? hq),
      getD_of_getElem? hq, if_neg (by decide), if_pos (by decide), hc]
    simp
  exact decodeDNSName_mono h2 (by simp) fuel2 hf

/-- `parseQuestion` on a question whose name is one or more labels ended by a zero byte. -/
theorem parseQuestion_labels (pre post : List Nat) (ls : List (List Nat))
    (t1 t2 c1 c2 : Nat) (hne : ls ≠ []) (hv : ∀ l ∈ ls, plainLabel l) :
    parseQuestion (pre ++ encodeParts ls ++ 0 :: t1 :: t2 :: c1 :: c2 :: post) pre.length =
      .ok (⟨dotted ls, t1 * 256 + t2, c1 * 256 + c2⟩,
        pre.length + (encodeParts ls).length + 5) := by
  have hq : decodeQuestionData (pre ++ encodeParts ls ++ 0 :: t1 :: t2 :: c1 :: c2 :: post)
      (pre.length + (encodeParts ls).length + 1) = .ok (t1 * 256 + t2, c1 * 256 + c2) := by
    have h1 := slice_mid (pre ++ encodeParts ls ++ [0]) [t1, t2] (c1 :: c2 :: post)
    have h2 := slice_mid (pre ++ encodeParts ls ++ [0, t1, t2]) [c1, c2] post
    simp only [List.append_assoc, List.cons_append, List.nil_append, List.length_append,
      List.length_cons, List.length_nil] at h1 h2
    simp only [decodeQuestionData, bind, Except.bind, pure, Except.pure, List.append_assoc]
    rw [show pre.length + (encodeParts ls).length + 1 + 2 =
        pre.length + ((encodeParts ls).length + (0 + 1)) + (0 + 1 + 1) by omega,
      show pre.length + (encodeParts ls).length + 1 =
        pre.length + ((encodeParts ls).length + (0 + 1)) by omega, h1]
    simp only
    rw [show pre.length + ((encodeParts ls).length + (0 + 1)) + 2 =
        pre.length + ((encodeParts ls).length + (0 + 1 + 1 + 1)) by omega,
      show pre.length + ((encodeParts ls).length + (0 + 1)) + 4 =
        pre.length + ((encodeParts ls).length + (0 + 1 + 1 + 1)) + (0 + 1 + 1) by omega, h2]
    simp [uint16]
  simp only [parseQuestion, bind, Except.bind, pure, Except.pure,
    decodeDNSNameSimple_labels pre _ ls hne hv, hq]

/-! ## C1: decoding an encoded name -/

/-- C1, counterexample: for the one-label name `a` the decoder returns the
text `a.` (with a trailing dot), and no amount of fuel makes it return `a`. -/
theorem decode_encode_not_identity :
    joinDot [[97]] = [97] ∧ validLabel [97] ∧ dot ∉ [97] ∧
    decodeDNSName 2 (encodeDNSName [97]) 0 = .ok ([97, 46], 2) ∧
    ¬ ∃ fuel offset, decodeDNSName fuel (encodeDNSName [97]) 0 = .ok ([97], offset) := by
  refine ⟨by decide, by decide, by decide, by decide, ?_⟩
  rintro ⟨fuel, offset, h⟩
  have h2 : decodeDNSName 2 (encodeDNSName [97]) 0 = .ok ([97, 46], 2) := by decide
  have := decodeDNSName_det h h2
  simp at this

/-- C1, amended: for every domain name made of one or more dot-separated
labels, each 1 to 63 bytes long and without a dot, decoding the encoded name
from offset 0 returns (with fuel for one step per label and one more) the
name followed by a single dot. -/
theorem decode_encode_trailing_dot (labels : List (List Nat)) (fuel : Nat)
    (hne : labels ≠ []) (hv : ∀ l ∈ labels, validLabel l) (hdot : ∀ l ∈ labels, dot ∉ l)
    (hf : labels.length + 1 ≤ fuel) :
    (decodeDNSName fuel (encodeDNSName (joinDot labels)) 0).map Prod.fst =
      .ok (joinDot labels ++ [dot]) := by
  have h := decodeDNSNameLoop_labels labels [] [] [] 0 fuel hv hf
  simp only [List.nil_append, List.length_nil] at h
  rw [decodeDNSName, encodeDNSName, splitDot_joinDot labels hne hdot, h,
    dotted_eq_joinDot labels hne]
  rfl

/-- C1, witness: the name `a.bc`. -/
theorem decode_encode_trailing_dot_witness :
    (decodeDNSName 3 (encodeDNSName (joinDot [[97], [98, 99]])) 0).map Prod.fst =
      .ok (joinDot [[97], [98, 99]] ++ [dot]) :=
  decode_encode_trailing_dot [[97], [98, 99]] 3 (by decide) (by decide) (by decide) (by decide)

/-! ## C2: the offset of a compression pointer -/

set_option maxRecDepth 100000 in
/-- C2, failing input: in `pointerBuffer` the pointer `C1 01` at offset 0 has
the 14-bit offset 257, where the name `b.` is decoded; `decodeCompressedName`
adds the two bytes modulo 256, gets offset 2 and returns the name `a.`
found there, and with no fuel does it return `b.`. -/
theorem pointer_offset_is_byte_sum :
    pointerBuffer.length = 260 ∧ pointerBuffer.getD 0 0 = 0xC1 ∧
    (pointerBuffer.getD 0 0 &&& 0x3F) * 256 + pointerBuffer.getD 1 0 = 257 ∧
    decodeDNSName 2 pointerBuffer 257 = .ok ([98, 46], 259) ∧
    decodeDNSName 2 pointerBuffer 2 = .ok ([97, 46], 4) ∧
    decodeCompressedName 3 0xC1 pointerBuffer 0 = .ok [97, 46] ∧
    ¬ ∃ fuel, decodeCompressedName fuel 0xC1 pointerBuffer 0 = .ok [98, 46] := by
  refine ⟨by decide, by decide, by decide, by decide, by decide, by decide, ?_⟩
  rintro ⟨fuel, h⟩
  have h2 : decodeCompressedName 3 0xC1 pointerBuffer 0 = .ok [97, 46] := by decide
  have := decodeCompressedName_det h h2
  simp at this

/-! ## C3: buffers shorter than their counts declare -/

/-- C3, failing input: the 12-byte buffer with QDCOUNT = 1 is shorter than
12 + 5 bytes, and `parseDNSPacket` decodes it into a message with one
question (empty name, type and class read from the header bytes 1 to 4). -/
theorem header_only_buffer_is_decoded :
    headerOnlyBuffer.length = 12 ∧
    parseHeader headerOnlyBuffer = .ok ⟨0, 0, 1, 0, 0, 0⟩ ∧
    headerOnlyBuffer.length < 12 + 5 * 1 + 11 * (0 + 0 + 0) ∧
    ∀ fuel, parseDNSPacket fuel headerOnlyBuffer =
      .ok ⟨⟨0, 0, 1, 0, 0, 0⟩, [⟨[], 0, 0⟩], [], [], []⟩ := by
  refine ⟨by decide, by decide, by decide, ?_⟩
  intro fuel
  rfl

/-- Where the decoder does fail on a short buffer.  On a buffer whose
capacity equals its length, `parseDNSPacket` fails with an out-of-bounds
error when the buffer is shorter than the 12-byte header, and when QDCOUNT is
at least 1 and the buffer ends inside its first question: the question is
one or more labels of 1 to 63 bytes, a zero byte and four bytes of type and
class, and the buffer holds its first byte but not its last. -/
theorem truncated_buffer_fails (fuel : Nat) (buffer : List Nat)
    (h : buffer.length < 12 ∨
      ∃ (hdr cut rest tail : List Nat) (ls : List (List Nat)) (hd : DNSHeader),
        buffer = hdr ++ cut ∧ hdr.length = 12 ∧ parseHeader hdr = .ok hd ∧
        1 ≤ hd.NumbQuestions ∧ ls ≠ [] ∧ (∀ l ∈ ls, validLabel l) ∧ tail.length = 4 ∧
        cut ≠ [] ∧ rest ≠ [] ∧ cut ++ rest = encodeParts ls ++ 0 :: tail) :
    parseDNSPacket fuel buffer = .error .outOfBounds := by
  rcases h with h | ⟨hdr, cut, rest, tail, ls, hd, rfl, hlen, hp, hq, hne, hv, ht, hc, hrest, hcut⟩
  · have hs : slice buffer 0 12 = .error .outOfBounds := slice_error h
    simp [parseDNSPacket, hs, bind, Except.bind]
  · have hs : slice (hdr ++ cut) 0 12 = .ok hdr := by
      have := slice_mid [] hdr cut
      simpa [hlen] using this
    have hpq := parseQuestion_cut hdr cut rest tail ls hne
      (fun l hl => ⟨(hv l hl).1, by have := (hv l hl).2; omega⟩) ht hc hrest hcut
    rw [hlen] at hpq
    obtain ⟨k, hk⟩ : ∃ k, hd.NumbQuestions = k + 1 := ⟨hd.NumbQuestions - 1, by omega⟩
    simp only [parseDNSPacket, hs, hp, hk, parseQuestions, hpq, bind, Except.bind]

/-- An instance: a header with QDCOUNT = 1 followed by the first four bytes of
the question `a.bc`, type 1, class 1. -/
theorem truncated_buffer_fails_witness :
    parseDNSPacket 5 ([0, 0, 0, 0, 0, 1, 0, 0, 0, 0, 0, 0] ++ [1, 97, 2, 98]) =
      .error .outOfBounds :=
  truncated_buffer_fails 5 ([0, 0, 0, 0, 0, 1, 0, 0, 0, 0, 0, 0] ++ [1, 97, 2, 98])
    (Or.inr ⟨[0, 0, 0, 0, 0, 1, 0, 0, 0, 0, 0, 0], [1, 97, 2, 98], [99, 0, 0, 1, 0, 1],
      [0, 1, 0, 1], [[97], [98, 99]], ⟨0, 0, 1, 0, 0, 0⟩, rfl, by decide, by decide, by decide,
      by decide, by decide, by decide, by decide, by decide, by decide⟩)

/-! ## C4: the cursor after an answer record -/

/-- C4, failing input: in `referralBuffer` the answer is parsed at offset 19
and `parseRecord` returns offset 35, where the authority record starts.
`parseDNSPacket` parses the authority at 19 + 35 + 1 = 55, past the end of
the 51-byte buffer, so its authority is built from the header bytes and is
not the record at offset 35. -/
theorem cursor_after_answer_is_sum :
    referralBuffer.length = 51 ∧
    parseQuestion referralBuffer 12 = .ok (⟨[97, 46], 1, 1⟩, 19) ∧
    parseRecord 6 referralBuffer 19 = .ok (⟨[97, 46], 1, 1, 60, [1, 2, 3, 4]⟩, 35) ∧
    parseRecord 6 referralBuffer 35 =
      .ok (⟨[97, 46], 2, 1, 60, [110, 46, 97, 46]⟩, 51) ∧
    parseRecord 6 referralBuffer 55 = .ok (⟨[], 0x1234, 0x8000, 0x10001, [0]⟩, 11) ∧
    parseDNSPacket 6 referralBuffer =
      .ok ⟨⟨0x1234, 0x8000, 1, 1, 1, 0⟩, [⟨[97, 46], 1, 1⟩],
        [⟨[97, 46], 1, 1, 60, [1, 2, 3, 4]⟩], [⟨[], 0x1234, 0x8000, 0x10001, [0]⟩], []⟩ := by
  refine ⟨by decide, by decide, by decide, by decide, by decide, by decide⟩

/-! ## C5, C6: the offset after a name ended by a zero byte -/

/-- C5, failing input: `plainRecordBuffer` holds at offset 0 the 3-byte name
`a`, then type 1, class 1, TTL 60, RDLENGTH 4 and 4 data bytes, 17 bytes in
all.  `decodeDNSName` returns offset 2 (the terminator) instead of 3, so
`parseRecord` reads the fixed fields one byte early (type 0, class 256,
RDLENGTH 15360) and fails on the data slice. -/
theorem record_after_plain_name_misread :
    plainRecordBuffer.length = 17 ∧
    decodeDNSName 2 plainRecordBuffer 0 = .ok ([97, 46], 2) ∧
    (slice plainRecordBuffer 2 12).bind decodeRecordData = .ok (0, 256, 16777216, 15360) ∧
    (slice plainRecordBuffer 3 13).bind decodeRecordData = .ok (1, 1, 60, 4) ∧
    ∀ fuel, 2 ≤ fuel → parseRecord fuel plainRecordBuffer 0 = .error .outOfBounds := by
  refine ⟨by decide, by decide, by decide, by decide, ?_⟩
  intro fuel hf
  have h2 : decodeDNSName 2 plainRecordBuffer 0 = .ok ([97, 46], 2) := by decide
  have h := decodeDNSName_mono h2 (by simp) fuel hf
  simp only [parseRecord, h, bind, Except.bind]
  rfl

/-- C6, failing input: for the name `a` at offset 0 of `[1, 97, 0]` the zero
byte is at position 2 and `decodeDNSName` returns 2, not 3; for the empty
name at offset 1 of `[7, 0]` (zero byte at position 1) it returns 0, not 2. -/
theorem plain_name_offset_is_terminator :
    decodeDNSName 2 [1, 97, 0] 0 = .ok ([97, 46], 2) ∧
    decodeDNSName 1 [7, 0] 1 = .ok ([], 0) ∧
    decodeDNSNameSimple [1, 97, 0] 0 = .ok ([97, 46], 3) := by
  refine ⟨by decide, by decide, by decide⟩

/-! ## C7: the header codec -/

theorem parseHeader_headerToBytes (h : DNSHeader) (hw : h.wf) :
    parseHeader (headerToBytes h) = .ok h := by
  obtain ⟨h1, h2, h3, h4, h5, h6⟩ := hw
  cases h with
  | mk a b c d e1 f =>
    simp only at h1 h2 h3 h4 h5 h6
    simp only [parseHeader, headerToBytes, putUint16, slice, bind, Except.bind, pure, Except.pure,
      uint16, List.cons_append, List.nil_append, List.length_cons, List.length_nil]
    simp only [List.drop, List.take, Nat.reduceAdd, Nat.reduceSub, Nat.reduceLeDiff,
      Nat.zero_le, le_refl, and_self, if_true, List.getD_cons_zero, List.getD_cons_succ]
    congr 2 <;> omega

/-- C7: `headerToBytes` writes the six fields of a header as 12 bytes, each
field big-endian and in the order ID, Flags, QDCOUNT, ANCOUNT, NSCOUNT,
ARCOUNT; `parseHeader` reads the header back; and writing the header parsed
from any 12 bytes gives those bytes again. -/
theorem header_roundtrip (h : DNSHeader) (b : List Nat) (hw : h.wf)
    (hlen : b.length = 12) (hbytes : ∀ x ∈ b, x < 256) :
    (headerToBytes h).length = 12 ∧
    headerToBytes h =
      [h.ID / 256, h.ID % 256, h.Flags / 256, h.Flags % 256,
       h.NumbQuestions / 256, h.NumbQuestions % 256, h.NumbAnswers / 256, h.NumbAnswers % 256,
       h.NumAuthority / 256, h.NumAuthority % 256,
       h.NumAdditional / 256, h.NumAdditional % 256] ∧
    parseHeader (headerToBytes h) = .ok h ∧
    (parseHeader b).map headerToBytes = .ok b := by
  refine ⟨by simp [headerToBytes, putUint16], ?_, parseHeader_headerToBytes h hw, ?_⟩
  · obtain ⟨h1, h2, h3, h4, h5, h6⟩ := hw
    simp only [headerToBytes, putUint16, List.cons_append, List.nil_append]
    have e : ∀ v, v < 65536 → v / 256 % 256 = v / 256 := fun v hv => by omega
    rw [e _ h1, e _ h2, e _ h3, e _ h4, e _ h5, e _ h6]
  · match b, hlen with
    | [b0, b1, b2, b3, b4, b5, b6, b7, b8, b9, b10, b11], _ =>
      simp only [List.mem_cons, List.mem_singleton, forall_eq_or_imp, forall_eq,
        List.not_mem_nil, false_implies, implies_true, and_true] at hbytes
      obtain ⟨_, _, _, _, _, _, _, _, _, _, _, _⟩ := hbytes
      simp only [parseHeader, slice, bind, Except.bind, pure, Except.pure, Except.map,
        uint16, List.length_cons, List.length_nil]
      simp only [List.drop, List.take, Nat.reduceAdd, Nat.reduceSub, Nat.reduceLeDiff,
        Nat.zero_le, le_refl, and_self, if_true, List.getD_cons_zero, List.getD_cons_succ,
        headerToBytes, putUint16, List.cons_append, List.nil_append]
      congr 1
      simp only [List.cons.injEq, and_true]
      omega

/-- C7, witness: the header of a query and the bytes of a response header. -/
theorem header_roundtrip_witness :
    (headerToBytes ⟨0xBEEF, 0x0100, 1, 0, 0, 65535⟩).length = 12 ∧
    headerToBytes ⟨0xBEEF, 0x0100, 1, 0, 0, 65535⟩ =
      [0xBEEF / 256, 0xBEEF % 256, 0x0100 / 256, 0x0100 % 256, 1 / 256, 1 % 256,
       0 / 256, 0 % 256, 0 / 256, 0 % 256, 65535 / 256, 65535 % 256] ∧
    parseHeader (headerToBytes ⟨0xBEEF, 0x0100, 1, 0, 0, 65535⟩) =
      .ok ⟨0xBEEF, 0x0100, 1, 0, 0, 65535⟩ ∧
    (parseHeader [0x12, 0x34, 0x81, 0x80, 0, 1, 0, 2, 0, 0, 255, 255]).map headerToBytes =
      .ok [0x12, 0x34, 0x81, 0x80, 0, 1, 0, 2, 0, 0, 255, 255] :=
  header_roundtrip ⟨0xBEEF, 0x0100, 1, 0, 0, 65535⟩
    [0x12, 0x34, 0x81, 0x80, 0, 1, 0, 2, 0, 0, 255, 255] (by decide) (by decide) (by decide)

/-! ## C8: a pointer with first byte `C0` -/

/-- C8: when `decodeDNSName` returns the name `N` at a target offset
`t ≤ 255`, and position `q` holds the two bytes `C0`, `t`, then
`decodeDNSName` at `q` returns `N` and the offset `q + 2` (with two more
units of fuel, or any larger amount). -/
theorem compression_transparent (buffer N : List Nat) (t q o fuel fuel2 : Nat)
    (ht : t ≤ 255) (hN : decodeDNSName fuel buffer t = .ok (N, o))
    (hq : buffer[q]? = some 0xC0) (hq1 : buffer[q + 1]? = some t)
    (hf : fuel + 2 ≤ fuel2) :
    decodeDNSName fuel2 buffer q = .ok (N, q + 2) :=
  decodeDNSName_pointer_C0 buffer N t q o fuel fuel2 ht hN hq hq1 hf

/-- C8, witness: in `referralBuffer` the answer name at offset 19 is a pointer
to the question name at offset 12. -/
theorem compression_transparent_witness :
    decodeDNSName 4 referralBuffer 19 = .ok ([97, 46], 19 + 2) :=
  compression_transparent referralBuffer [97, 46] 12 19 14 2 4 (by decide) (by decide)
    (by decide) (by decide) (by decide)

/-! ## C9: names in questions -/

/-- C9, counterexample: in `pointerQuestionBuffer` the name at offset 12
decodes to `a.` and the question at offset 15 has the pointer `C0 0C` to it
as its name, followed by type 1 and class 1.  `parseQuestion` takes the byte
`C0` for the length of a 192-byte label and fails on the 21-byte buffer; on
the same message padded with 200 zero bytes it returns a 193-byte name and
the offset 213 instead of `a.` and 21. -/
theorem question_pointer_not_followed :
    pointerQuestionBuffer.length = 21 ∧
    decodeDNSName 2 pointerQuestionBuffer 12 = .ok ([97, 46], 14) ∧
    decodeDNSName 4 pointerQuestionBuffer 15 = .ok ([97, 46], 17) ∧
    parseQuestion pointerQuestionBuffer 15 = .error .outOfBounds ∧
    parseQuestion (pointerQuestionBuffer ++ List.replicate 200 0) 15 =
      .ok (⟨12 :: 0 :: 1 :: 0 :: 1 :: List.replicate 187 0 ++ [dot], 0, 0⟩, 213) := by
  refine ⟨by decide, by decide, by decide, by decide, ?_⟩
  set_option maxRecDepth 100000 in decide

/-- C9, amended: the question decoder reads names without compression.  For
every buffer that holds at offset `p` one or more labels, each announced by a
non-zero length byte (a byte of 192 or more counts as a length like any
other), then a zero byte at `z`, then QTYPE and QCLASS, `parseQuestion`
returns the labels each followed by a dot as QName, the two big-endian
16-bit values at `z + 1` and `z + 3` as QType and QClass, and the offset
`z + 5`. -/
theorem parseQuestion_plain_labels (pre post : List Nat) (ls : List (List Nat))
    (t1 t2 c1 c2 : Nat) (hne : ls ≠ []) (hv : ∀ l ∈ ls, plainLabel l) :
    parseQuestion (pre ++ encodeParts ls ++ 0 :: t1 :: t2 :: c1 :: c2 :: post) pre.length =
      .ok (⟨dotted ls, t1 * 256 + t2, c1 * 256 + c2⟩,
        pre.length + (encodeParts ls).length + 5) :=
  parseQuestion_labels pre post ls t1 t2 c1 c2 hne hv

/-- C9, witness: the question `a`, type 1, class 1 after a 12-byte header. -/
theorem parseQuestion_plain_labels_witness :
    parseQuestion ([0, 0, 0, 0, 0, 1, 0, 0, 0, 0, 0, 0] ++ encodeParts [[97]] ++
        0 :: 0 :: 1 :: 0 :: 1 :: [])
      ([0, 0, 0, 0, 0, 1, 0, 0, 0, 0, 0, 0] : List Nat).length =
      .ok (⟨dotted [[97]], 0 * 256 + 1, 0 * 256 + 1⟩,
        ([0, 0, 0, 0, 0, 1, 0, 0, 0, 0, 0, 0] : List Nat).length +
          (encodeParts [[97]]).length + 5) :=
  parseQuestion_plain_labels [0, 0, 0, 0, 0, 1, 0, 0, 0, 0, 0, 0] [] [[97]] 0 1 0 1
    (by decide) (by decide)

/-! ## C10: the bytes of a query -/

/-- C10: for every domain, every mnemonic of the type table (with its code)
and every 16-bit id, the query is the header `id`, flags 0, counts 1, 0, 0, 0
(big-endian), then the encoded name, then the type code as big-endian 16
bits, then class 1; it is `len(domain) + 18` bytes long. -/
theorem buildQuery_bytes (id : Nat) (domainName : List Nat) (recordType : String) (code : Nat)
    (hid : id < 65536) (hmem : (recordType, code) ∈ dnsTypeMap) :
    buildQuery id domainName recordType =
      [id / 256, id % 256, 0, 0, 0, 1, 0, 0, 0, 0, 0, 0] ++ encodeDNSName domainName ++
        [0, code] ++ [0, 1] ∧
    (buildQuery id domainName recordType).length = domainName.length + 18 := by
  obtain ⟨hget, hcode⟩ := dnsTypeMapGet_of_mem hmem
  have hb : buildQuery id domainName recordType =
      [id / 256, id % 256, 0, 0, 0, 1, 0, 0, 0, 0, 0, 0] ++ encodeDNSName domainName ++
        [0, code] ++ [0, 1] := by
    simp only [buildQuery, headerToBytes, questionToBytes, putUint16, hget,
      List.cons_append, List.nil_append, List.append_assoc]
    have e1 : id % 65536 / 256 % 256 = id / 256 := by omega
    have e2 : id % 65536 % 256 = id % 256 := by omega
    have e3 : code / 256 % 256 = 0 := by omega
    have e4 : code % 256 = code := by omega
    rw [e1, e2, e3, e4]
  refine ⟨hb, ?_⟩
  rw [hb]
  simp only [List.length_append, List.length_cons, List.length_nil, length_encodeDNSName]
  omega

/-- C10, witness: the query for `a.bc`, type MX, id 0xBEEF. -/
theorem buildQuery_bytes_witness :
    buildQuery 0xBEEF [97, 46, 98, 99] "MX" =
      [0xBEEF / 256, 0xBEEF % 256, 0, 0, 0, 1, 0, 0, 0, 0, 0, 0] ++
        encodeDNSName [97, 46, 98, 99] ++ [0, 15] ++ [0, 1] ∧
    (buildQuery 0xBEEF [97, 46, 98, 99] "MX").length = ([97, 46, 98, 99] : List Nat).length + 18 :=
  buildQuery_bytes 0xBEEF [97, 46, 98, 99] "MX" 15 (by decide) (by decide)

/-! ## Responses: lemmas on reading a message laid out as a list of parts -/

theorem getElem?_at {pre post : List Nat} {x n : Nat} (h : n = pre.length) :
    (pre ++ x :: post)[n]? = some x := by
  subst h
  rw [List.getElem?_append_right (Nat.le_refl _)]
  simp

theorem slice_at {pre l post : List Nat} {lo hi : Nat} (h1 : lo = pre.length)
    (h2 : hi = lo + l.length) : slice (pre ++ l ++ post) lo hi = .ok l := by
  subst h1; subst h2
  exact slice_mid pre l post

theorem parseHeader_twelve (b0 b1 b2 b3 b4 b5 b6 b7 b8 b9 b10 b11 : Nat) :
    parseHeader [b0, b1, b2, b3, b4, b5, b6, b7, b8, b9, b10, b11] =
      .ok ⟨b0 * 256 + b1, b2 * 256 + b3, b4 * 256 + b5, b6 * 256 + b7, b8 * 256 + b9,
        b10 * 256 + b11⟩ := by
  simp only [parseHeader, slice, bind, Except.bind, pure, Except.pure, uint16,
    List.length_cons, List.length_nil]
  simp only [List.drop, List.take, Nat.reduceAdd, Nat.reduceSub, Nat.reduceLeDiff,
    Nat.zero_le, le_refl, and_self, if_true, List.getD_cons_zero, List.getD_cons_succ]

theorem dottedDecimal_ne_empty (a b c d : Nat) :
    toString a ++ "." ++ toString b ++ "." ++ toString c ++ "." ++ toString d ≠ "" := by
  intro h
  have := congrArg String.length h
  simp only [String.length_append] at this
  have h1 : (".").length = 1 := by decide
  have h0 : ("").length = 0 := by decide
  rw [h1, h0] at this
  omega

theorem ipToString_four (a b c d : Nat) :
    ipToString [a, b, c, d] =
      .ok (toString a ++ "." ++ toString b ++ "." ++ toString c ++ "." ++ toString d) := by
  simp [ipToString, index, bind, Except.bind, pure, Except.pure]

theorem decodeRecordData_ten (t1 t2 c1 c2 l1 l2 l3 l4 d1 d2 : Nat) :
    decodeRecordData [t1, t2, c1, c2, l1, l2, l3, l4, d1, d2] =
      .ok (t1 * 256 + t2, c1 * 256 + c2,
        l1 * 16777216 + l2 * 65536 + l3 * 256 + l4, d1 * 256 + d2) := by
  simp only [decodeRecordData, slice, bind, Except.bind, pure, Except.pure, uint16, uint32,
    List.length_cons, List.length_nil]
  simp only [List.drop, List.take, Nat.reduceAdd, Nat.reduceSub, Nat.reduceLeDiff,
    Nat.zero_le, le_refl, and_self, if_true, List.getD_cons_zero, List.getD_cons_succ]

/-- `parseRecord` on a record of type NS. -/
theorem parseRecord_ns {fuel : Nat} {buffer name N : List Nat} {p e o : Nat}
    {t1 t2 c1 c2 l1 l2 l3 l4 d1 d2 : Nat}
    (hname : decodeDNSName fuel buffer p = .ok (name, e))
    (hfix : slice buffer e (e + 10) = .ok [t1, t2, c1, c2, l1, l2, l3, l4, d1, d2])
    (hns : t1 * 256 + t2 = 2) (hN : decodeDNSName fuel buffer (e + 10) = .ok (N, o)) :
    parseRecord fuel buffer p =
      .ok (⟨name, 2, c1 * 256 + c2, l1 * 16777216 + l2 * 65536 + l3 * 256 + l4, N⟩,
        e + 10 + (d1 * 256 + d2)) := by
  have hmap : dnsTypeMapGet "NS" = 2 := by decide
  simp only [parseRecord, hname, hfix, decodeRecordData_ten, bind, Except.bind, pure,
    Except.pure, hmap, hns, if_true, hN]

/-- `parseRecord` on a record of any other type. -/
theorem parseRecord_raw {fuel : Nat} {buffer name : List Nat} {p e : Nat}
    {t1 t2 c1 c2 l1 l2 l3 l4 d1 d2 : Nat}
    (hname : decodeDNSName fuel buffer p = .ok (name, e))
    (hfix : slice buffer e (e + 10) = .ok [t1, t2, c1, c2, l1, l2, l3, l4, d1, d2])
    (hns : t1 * 256 + t2 ≠ 2) (hlen : e + 10 + (d1 * 256 + d2) ≤ buffer.length) :
    parseRecord fuel buffer p =
      .ok (⟨name, t1 * 256 + t2, c1 * 256 + c2,
          l1 * 16777216 + l2 * 65536 + l3 * 256 + l4,
          (buffer.drop (e + 10)).take (d1 * 256 + d2)⟩,
        e + 10 + (d1 * 256 + d2)) := by
  have hmap : dnsTypeMapGet "NS" = 2 := by decide
  have hs := @slice_ok buffer (e + 10) (e + 10 + (d1 * 256 + d2))
    (by omega) hlen
  rw [Nat.add_sub_cancel_left] at hs
  simp only [parseRecord, hname, hfix, decodeRecordData_ten, bind, Except.bind, pure,
    Except.pure, hmap, hns, if_false, hs]

/-! ## The resolver: the getters and one iteration of the loop -/

theorem getAnswerLoop_none (rs : List DNSRecord) (h : ∀ r ∈ rs, r.Type_ ≠ 1) :
    getAnswerLoop rs = .ok "" := by
  induction rs with
  | nil => rfl
  | cons r rs ih =>
    have hA : dnsTypeMapGet "A" = 1 := by decide
    rw [getAnswerLoop, hA, if_neg (h r (by simp))]
    exact ih (fun x hx => h x (by simp [hx]))

theorem getAnswerLoop_first (rs : List DNSRecord) (r : DNSRecord)
    (h : rs.find? (fun x => decide (x.Type_ = 1)) = some r) :
    getAnswerLoop rs = ipToString r.Data := by
  induction rs with
  | nil => simp at h
  | cons x xs ih =>
    have hA : dnsTypeMapGet "A" = 1 := by decide
    rw [getAnswerLoop, hA]
    by_cases hx : x.Type_ = 1
    · rw [if_pos hx]
      simp only [List.find?, hx, decide_True, Option.some.injEq] at h
      rw [h]
    · rw [if_neg hx]
      simp only [List.find?, hx, decide_False] at h
      exact ih h

theorem getNameServerIPLoop_none (rs : List DNSRecord) (h : ∀ r ∈ rs, r.Type_ ≠ 1) :
    getNameServerIPLoop rs = .ok "" := by
  induction rs with
  | nil => rfl
  | cons r rs ih =>
    have hA : dnsTypeMapGet "A" = 1 := by decide
    rw [getNameServerIPLoop, hA, if_neg (h r (by simp))]
    exact ih (fun x hx => h x (by simp [hx]))

theorem getNameServerIPLoop_first (rs : List DNSRecord) (r : DNSRecord)
    (h : rs.find? (fun x => decide (x.Type_ = 1)) = some r) :
    getNameServerIPLoop rs = ipToString r.Data := by
  induction rs with
  | nil => simp at h
  | cons x xs ih =>
    have hA : dnsTypeMapGet "A" = 1 := by decide
    rw [getNameServerIPLoop, hA]
    by_cases hx : x.Type_ = 1
    · rw [if_pos hx]
      simp only [List.find?, hx, decide_True, Option.some.injEq] at h
      rw [h]
    · rw [if_neg hx]
      simp only [List.find?, hx, decide_False] at h
      exact ih h

theorem getNameServerLoop_none (rs : List DNSRecord) (h : ∀ r ∈ rs, r.Type_ ≠ 2) :
    getNameServerLoop rs = [] := by
  induction rs with
  | nil => rfl
  | cons r rs ih =>
    have hA : dnsTypeMapGet "NS" = 2 := by decide
    rw [getNameServerLoop, hA, if_neg (h r (by simp))]
    exact ih (fun x hx => h x (by simp [hx]))

theorem getNameServerLoop_first (rs : List DNSRecord) (r : DNSRecord)
    (h : rs.find? (fun x => decide (x.Type_ = 2)) = some r) :
    getNameServerLoop rs = r.Data := by
  induction rs with
  | nil => simp at h
  | cons x xs ih =>
    have hA : dnsTypeMapGet "NS" = 2 := by decide
    rw [getNameServerLoop, hA]
    by_cases hx : x.Type_ = 2
    · rw [if_pos hx]
      simp only [List.find?, hx, decide_True, Option.some.injEq] at h
      rw [h]
    · rw [if_neg hx]
      simp only [List.find?, hx, decide_False] at h
      exact ih h

theorem trimSuffixDot_append_dot (h : List Nat) : trimSuffixDot (h ++ [dot]) = h := by
  simp [trimSuffixDot]

theorem sendQuery_ok {transport : Transport} {dfuel : Nat} {ns : String} {d : List Nat}
    {t : String} {buffer : List Nat} {pkt : DNSPacket}
    (ht : transport ns d t = .ok buffer) (hp : parseDNSPacket dfuel buffer = .ok pkt) :
    sendQuery transport dfuel ns d t = .ok (pkt, none) := by
  simp only [sendQuery, ht, hp]

/-- The iteration of `resolve` on a response with an address in its answers. -/
theorem resolveLoop_answer {transport : Transport} {dfuel fuel : Nat} {ns : String}
    {d : List Nat} {t : String} {buffer : List Nat} {pkt : DNSPacket} {ip : String}
    (ht : transport ns d t = .ok buffer) (hp : parseDNSPacket dfuel buffer = .ok pkt)
    (ha : getAnswer pkt = .ok ip) (hne : ip ≠ "") :
    resolveLoop transport dfuel (fuel + 1) ns d t = ⟨[⟨ns, d, t⟩], .ok (ip, none)⟩ := by
  rw [resolveLoop]
  simp only [sendQuery_ok ht hp, ha, hne, ne_eq, not_false_eq_true, if_true]

/-- The iteration of `resolve` on a response with no address in its answers
and an address in its additionals. -/
theorem resolveLoop_glue {transport : Transport} {dfuel fuel : Nat} {ns : String}
    {d : List Nat} {t : String} {buffer : List Nat} {pkt : DNSPacket} {ip : String}
    (ht : transport ns d t = .ok buffer) (hp : parseDNSPacket dfuel buffer = .ok pkt)
    (ha : getAnswer pkt = .ok "") (hg : getNameServerIP pkt = .ok ip) (hne : ip ≠ "") :
    resolveLoop transport dfuel (fuel + 1) ns d t =
      ⟨⟨ns, d, t⟩ :: (resolveLoop transport dfuel fuel ip d t).queries,
        (resolveLoop transport dfuel fuel ip d t).result⟩ := by
  rw [resolveLoop]
  simp only [sendQuery_ok ht hp, ha, hg, hne, ne_eq, not_true_eq_false, not_false_eq_true,
    if_true, if_false]

/-- The iteration of `resolve` on a response with no address in its answers
and additionals and a name server in its authorities. -/
theorem resolveLoop_referral {transport : Transport} {dfuel fuel : Nat} {ns : String}
    {d : List Nat} {t : String} {buffer : List Nat} {pkt : DNSPacket}
    (ht : transport ns d t = .ok buffer) (hp : parseDNSPacket dfuel buffer = .ok pkt)
    (ha : getAnswer pkt = .ok "") (hg : getNameServerIP pkt = .ok "")
    (hn : getNameServer pkt ≠ []) :
    resolveLoop transport dfuel (fuel + 1) ns d t =
      match (resolveLoop transport dfuel fuel rootServer
          (trimSuffixDot (getNameServer pkt)) "A").result with
      | .error e =>
        ⟨⟨ns, d, t⟩ :: (resolveLoop transport dfuel fuel rootServer
          (trimSuffixDot (getNameServer pkt)) "A").queries, .error e⟩
      | .ok (nameServer2, _) =>
        ⟨⟨ns, d, t⟩ :: ((resolveLoop transport dfuel fuel rootServer
            (trimSuffixDot (getNameServer pkt)) "A").queries ++
            (resolveLoop transport dfuel fuel nameServer2 d t).queries),
          (resolveLoop transport dfuel fuel nameServer2 d t).result⟩ := by
  rw [resolveLoop]
  simp only [sendQuery_ok ht hp, ha, hg, hn, ne_eq, not_true_eq_false, not_false_eq_true,
    if_true, if_false]

/-- The iteration of `resolve` on a response with none of the three. -/
theorem resolveLoop_nothing {transport : Transport} {dfuel fuel : Nat} {ns : String}
    {d : List Nat} {t : String} {buffer : List Nat} {pkt : DNSPacket}
    (ht : transport ns d t = .ok buffer) (hp : parseDNSPacket dfuel buffer = .ok pkt)
    (ha : getAnswer pkt = .ok "") (hg : getNameServerIP pkt = .ok "")
    (hn : getNameServer pkt = []) :
    resolveLoop transport dfuel (fuel + 1) ns d t =
      ⟨[⟨ns, d, t⟩], .ok ("", some .noAnswerFound)⟩ := by
  rw [resolveLoop]
  simp only [sendQuery_ok ht hp, ha, hg, hn, ne_eq, not_true_eq_false, if_false]

/-- A run of the loop with fuel starts by sending a query to its name server. -/
theorem resolveLoop_first_query (transport : Transport) (dfuel fuel : Nat) (ns : String)
    (d : List Nat) (t : String) :
    (resolveLoop transport dfuel (fuel + 1) ns d t).queries.head? = some ⟨ns, d, t⟩ := by
  rw [resolveLoop]
  simp only
  split
  · rfl
  · rfl
  · split
    · rfl
    · split
      · rfl
      · split
        · rfl
        · split
          · rfl
          · split
            · split <;> rfl
            · rfl

/-! ## C11: the address in an answer -/

/-- The message decoded from `answerResponse`. -/
theorem parseDNSPacket_answerResponse (fuel i1 i2 f1 f2 : Nat) (labels : List (List Nat))
    (q1 q2 k1 k2 l1 l2 l3 l4 a b c d : Nat) (padding : List Nat)
    (hne : labels ≠ []) (hv : ∀ l ∈ labels, validLabel l) (hdot : ∀ l ∈ labels, dot ∉ l)
    (hf : labels.length + 3 ≤ fuel) :
    parseDNSPacket fuel
        (answerResponse i1 i2 f1 f2 (joinDot labels) q1 q2 k1 k2 l1 l2 l3 l4 a b c d padding) =
      .ok ⟨⟨i1 * 256 + i2, f1 * 256 + f2, 1, 1, 0, 0⟩,
        [⟨dotted labels, q1 * 256 + q2, k1 * 256 + k2⟩],
        [⟨dotted labels, 1, 1, l1 * 16777216 + l2 * 65536 + l3 * 256 + l4, [a, b, c, d]⟩],
        [], []⟩ := by
  generalize hB : answerResponse i1 i2 f1 f2 (joinDot labels) q1 q2 k1 k2 l1 l2 l3 l4 a b c d
    padding = B
  have hB0 : B = [i1, i2, f1, f2, 0, 1, 0, 1, 0, 0, 0, 0] ++ encodeParts labels ++
      0 :: q1 :: q2 :: k1 :: k2 :: (0xC0 :: 12 :: 0 :: 1 :: 0 :: 1 :: l1 :: l2 :: l3 :: l4 ::
        0 :: 4 :: a :: b :: c :: d :: padding) := by
    rw [← hB, answerResponse, encodeDNSName, splitDot_joinDot labels hne hdot]
    simp
  set E := encodeParts labels with hE
  set hdr : List Nat := [i1, i2, f1, f2, 0, 1, 0, 1, 0, 0, 0, 0] with hhdr
  have hlen : hdr.length = 12 := rfl
  -- the header
  have hs : slice B 0 12 = .ok hdr := by
    have : B = [] ++ hdr ++ (E ++ 0 :: q1 :: q2 :: k1 :: k2 :: (0xC0 :: 12 :: 0 :: 1 :: 0 ::
        1 :: l1 :: l2 :: l3 :: l4 :: 0 :: 4 :: a :: b :: c :: d :: padding)) := by
      rw [hB0]; simp
    rw [this]
    exact slice_at rfl rfl
  have hh : parseHeader hdr = .ok ⟨i1 * 256 + i2, f1 * 256 + f2, 1, 1, 0, 0⟩ := by
    rw [hhdr, parseHeader_twelve]
  -- the question
  have hq : parseQuestion B 12 =
      .ok (⟨dotted labels, q1 * 256 + q2, k1 * 256 + k2⟩, 12 + E.length + 5) := by
    rw [hB0]
    exact parseQuestion_labels hdr _ labels q1 q2 k1 k2 hne
      (fun l hl => ⟨(hv l hl).1, by have := (hv l hl).2; omega⟩)
  -- the name of the answer
  have hN : decodeDNSName (labels.length + 1) B 12 =
      .ok (dotted labels, 12 + E.length) := by
    rw [hB0, decodeDNSName]
    have := decodeDNSNameLoop_labels labels hdr (q1 :: q2 :: k1 :: k2 :: (0xC0 :: 12 :: 0 :: 1 ::
      0 :: 1 :: l1 :: l2 :: l3 :: l4 :: 0 :: 4 :: a :: b :: c :: d :: padding)) [] 0
      (labels.length + 1) hv (Nat.le_refl _)
    rw [hlen] at this
    simpa [hne] using this
  have hB1 : B = (hdr ++ E ++ [0, q1, q2, k1, k2]) ++ 0xC0 :: (12 :: 0 :: 1 :: 0 :: 1 :: l1 ::
      l2 :: l3 :: l4 :: 0 :: 4 :: a :: b :: c :: d :: padding) := by
    rw [hB0]; simp
  have hB2 : B = (hdr ++ E ++ [0, q1, q2, k1, k2, 0xC0]) ++ 12 :: (0 :: 1 :: 0 :: 1 :: l1 ::
      l2 :: l3 :: l4 :: 0 :: 4 :: a :: b :: c :: d :: padding) := by
    rw [hB0]; simp
  have hB3 : B = (hdr ++ E ++ [0, q1, q2, k1, k2, 0xC0, 12]) ++
      [0, 1, 0, 1, l1, l2, l3, l4, 0, 4] ++ (a :: b :: c :: d :: padding) := by
    rw [hB0]; simp
  have hB4 : B = (hdr ++ E ++ [0, q1, q2, k1, k2, 0xC0, 12, 0, 1, 0, 1, l1, l2, l3, l4, 0, 4]) ++
      [a, b, c, d] ++ padding := by
    rw [hB0]; simp
  have hp0 : B[12 + E.length + 5]? = some 0xC0 := by
    rw [hB1]; exact getElem?_at (by simp [hlen]; omega)
  have hp1 : B[12 + E.length + 5 + 1]? = some 12 := by
    rw [hB2]; exact getElem?_at (by simp [hlen]; omega)
  have hname : decodeDNSName fuel B (12 + E.length + 5) =
      .ok (dotted labels, 12 + E.length + 5 + 2) :=
    decodeDNSName_pointer_C0 B (dotted labels) 12 _ _ (labels.length + 1) fuel (by omega) hN
      hp0 hp1 (by omega)
  have hfix : slice B (12 + E.length + 5 + 2) (12 + E.length + 5 + 2 + 10) =
      .ok [0, 1, 0, 1, l1, l2, l3, l4, 0, 4] := by
    rw [hB3]; exact slice_at (by simp [hlen]; omega) (by simp)
  have hdata : slice B (12 + E.length + 5 + 2 + 10) (12 + E.length + 5 + 2 + 10 + 4) =
      .ok [a, b, c, d] := by
    rw [hB4]; exact slice_at (by simp [hlen]; omega) (by simp)
  have hBlen : 12 + E.length + 5 + 2 + 10 + 4 ≤ B.length := by
    rw [hB4]; simp [hlen]; omega
  have hdata2 : (B.drop (12 + E.length + 5 + 2 + 10)).take (0 * 256 + 4) = [a, b, c, d] := by
    have h2 := @slice_ok B (12 + E.length + 5 + 2 + 10)
      (12 + E.length + 5 + 2 + 10 + 4) (by omega) hBlen
    rw [hdata, Nat.add_sub_cancel_left] at h2
    exact (Except.ok.inj h2).symm
  have hrec := parseRecord_raw hname hfix (by omega) (by omega)
  rw [hdata2] at hrec
  simp only [parseDNSPacket, hs, hh, parseQuestions, hq, parseAnswers, hrec, parseRecords, bind,
    Except.bind, pure, Except.pure]

/-- C11: for every response `answerResponse` (counts 1, 1, 0, 0, a question
with the encoded name of a domain of labels of 1 to 63 bytes, an answer named
by the pointer `C0 0C` with type 1, class 1, any TTL, RDLENGTH 4 and RDATA
`a b c d`, then any padding), and fuel of the number of labels plus 3 for the
decoder, `getAnswer` of the decoded message is the four numbers in decimal
joined by dots, and `resolve` returns that string with no error after one
query when the root server sends this response. -/
theorem answer_address_extracted (fuel i1 i2 f1 f2 : Nat) (labels : List (List Nat))
    (q1 q2 k1 k2 l1 l2 l3 l4 a b c d : Nat) (padding : List Nat)
    (hne : labels ≠ []) (hv : ∀ l ∈ labels, validLabel l) (hdot : ∀ l ∈ labels, dot ∉ l)
    (hf : labels.length + 3 ≤ fuel) :
    (parseDNSPacket fuel (answerResponse i1 i2 f1 f2 (joinDot labels) q1 q2 k1 k2
        l1 l2 l3 l4 a b c d padding)).bind getAnswer =
      .ok (toString a ++ "." ++ toString b ++ "." ++ toString c ++ "." ++ toString d) ∧
    ∀ (transport : Transport) (fuel2 : Nat) (domainName : List Nat) (recordType : String),
      transport rootServer domainName recordType =
          .ok (answerResponse i1 i2 f1 f2 (joinDot labels) q1 q2 k1 k2
            l1 l2 l3 l4 a b c d padding) →
        resolve transport fuel (fuel2 + 1) domainName recordType =
          ⟨[⟨rootServer, domainName, recordType⟩],
            .ok (toString a ++ "." ++ toString b ++ "." ++ toString c ++ "." ++ toString d,
              none)⟩ := by
  have hp := parseDNSPacket_answerResponse fuel i1 i2 f1 f2 labels q1 q2 k1 k2 l1 l2 l3 l4
    a b c d padding hne hv hdot hf
  have hA : dnsTypeMapGet "A" = 1 := by decide
  have hga : getAnswer ⟨⟨i1 * 256 + i2, f1 * 256 + f2, 1, 1, 0, 0⟩,
      [⟨dotted labels, q1 * 256 + q2, k1 * 256 + k2⟩],
      [⟨dotted labels, 1, 1, l1 * 16777216 + l2 * 65536 + l3 * 256 + l4, [a, b, c, d]⟩],
      [], []⟩ =
      .ok (toString a ++ "." ++ toString b ++ "." ++ toString c ++ "." ++ toString d) := by
    rw [getAnswer, getAnswerLoop, hA, if_pos rfl, ipToString_four]
  refine ⟨?_, ?_⟩
  · rw [hp]
    exact hga
  · intro transport fuel2 domainName recordType ht
    exact resolveLoop_answer ht hp hga (dottedDecimal_ne_empty a b c d)

/-- C11, witness: the response for `example.com` with the address
93.184.216.34, TTL 300 and three bytes of padding. -/
theorem answer_address_extracted_witness :
    (parseDNSPacket 5 (answerResponse 0xBE 0xEF 0x81 0x80
        (joinDot [[101, 120, 97, 109, 112, 108, 101], [99, 111, 109]]) 0 1 0 1
        0 0 1 44 93 184 216 34 [0, 0, 0])).bind getAnswer = .ok "93.184.216.34" ∧
    ∀ (transport : Transport) (fuel2 : Nat) (domainName : List Nat) (recordType : String),
      transport rootServer domainName recordType =
          .ok (answerResponse 0xBE 0xEF 0x81 0x80
            (joinDot [[101, 120, 97, 109, 112, 108, 101], [99, 111, 109]]) 0 1 0 1
            0 0 1 44 93 184 216 34 [0, 0, 0]) →
        resolve transport 5 (fuel2 + 1) domainName recordType =
          ⟨[⟨rootServer, domainName, recordType⟩], .ok ("93.184.216.34", none)⟩ :=
  answer_address_extracted 5 0xBE 0xEF 0x81 0x80
    [[101, 120, 97, 109, 112, 108, 101], [99, 111, 109]] 0 1 0 1 0 0 1 44 93 184 216 34
    [0, 0, 0] (by decide) (by decide) (by decide) (by decide)

/-! ## C12: answers before glue, glue before referrals -/

/-- C12, counterexample: the answers of `shortAnswerResponse` contain a
type-A record with 4-byte data (1, 2, 3, 4) after a type-A record with 3-byte
data; `resolve` does not return 1.2.3.4: `getAnswer` takes the first type-A
record and panics on its fourth byte.  The answers of `longAnswerResponse`
contain no type-A record with 4-byte data (the only one has 5 bytes) and its
additionals contain the type-A record 7.7.7.7; `resolve` sends no query to
7.7.7.7: it returns the first four bytes of the answer, 9.9.9.9. -/
theorem first_address_record_is_taken :
    parseDNSPacket 6 shortAnswerResponse =
      .ok ⟨⟨1, 0x8000, 1, 2, 0, 0⟩, [⟨[97, 46], 1, 1⟩],
        [⟨[97, 46], 1, 1, 60, [9, 9, 9]⟩, ⟨[97, 46], 1, 1, 60, [1, 2, 3, 4]⟩], [], []⟩ ∧
    resolve shortAnswerTransport 6 3 [97] "A" =
      ⟨[⟨rootServer, [97], "A"⟩], .error .outOfBounds⟩ ∧
    parseDNSPacket 6 longAnswerResponse =
      .ok ⟨⟨1, 0x8000, 1, 1, 0, 1⟩, [⟨[97, 46], 1, 1⟩],
        [⟨[97, 46], 1, 1, 60, [9, 9, 9, 9, 5]⟩], [],
        [⟨[97, 46], 1, 1, 60, [7, 7, 7, 7]⟩]⟩ ∧
    resolve longAnswerTransport 6 3 [97] "A" =
      ⟨[⟨rootServer, [97], "A"⟩], .ok ("9.9.9.9", none)⟩ := by
  refine ⟨by decide, by decide, by decide, by decide⟩

/-- C12, amended: one iteration of `resolve` on a decoded response.  If the first
type-A record of the answers has the 4-byte data `a b c e`, the loop returns
`a.b.c.e` and no error, having sent this one query, whatever the additionals
and authorities are.  If the answers have no type-A record and the first
type-A record of the additionals has the data `a b c e`, the run is the query
followed by the run of the loop with `a.b.c.e` as name server, whose first
query goes to that address for the same domain and type; no nested
resolution takes place, whatever the authorities are. -/
theorem answer_then_glue_priority (transport : Transport) (dfuel fuel : Nat) (ns : String)
    (domainName : List Nat) (recordType : String) (buffer : List Nat) (pkt : DNSPacket)
    (r : DNSRecord) (a b c e : Nat)
    (ht : transport ns domainName recordType = .ok buffer)
    (hp : parseDNSPacket dfuel buffer = .ok pkt) (hr : r.Data = [a, b, c, e]) :
    (pkt.Answers.find? (fun x => decide (x.Type_ = 1)) = some r →
      resolveLoop transport dfuel (fuel + 1) ns domainName recordType =
        ⟨[⟨ns, domainName, recordType⟩],
          .ok (toString a ++ "." ++ toString b ++ "." ++ toString c ++ "." ++ toString e,
            none)⟩) ∧
    ((∀ x ∈ pkt.Answers, x.Type_ ≠ 1) →
      pkt.Additional.find? (fun x => decide (x.Type_ = 1)) = some r →
      resolveLoop transport dfuel (fuel + 2) ns domainName recordType =
        ⟨⟨ns, domainName, recordType⟩ ::
            (resolveLoop transport dfuel (fuel + 1)
              (toString a ++ "." ++ toString b ++ "." ++ toString c ++ "." ++ toString e)
              domainName recordType).queries,
          (resolveLoop transport dfuel (fuel + 1)
              (toString a ++ "." ++ toString b ++ "." ++ toString c ++ "." ++ toString e)
              domainName recordType).result⟩ ∧
      (resolveLoop transport dfuel (fuel + 2) ns domainName recordType).queries.take 2 =
        [⟨ns, domainName, recordType⟩,
          ⟨toString a ++ "." ++ toString b ++ "." ++ toString c ++ "." ++ toString e,
            domainName, recordType⟩]) := by
  constructor
  · intro hf
    have ha : getAnswer pkt =
        .ok (toString a ++ "." ++ toString b ++ "." ++ toString c ++ "." ++ toString e) := by
      rw [getAnswer, getAnswerLoop_first _ r hf, hr, ipToString_four]
    exact resolveLoop_answer ht hp ha (dottedDecimal_ne_empty a b c e)
  · intro hno hf
    have ha : getAnswer pkt = .ok "" := getAnswerLoop_none _ hno
    have hg : getNameServerIP pkt =
        .ok (toString a ++ "." ++ toString b ++ "." ++ toString c ++ "." ++ toString e) := by
      rw [getNameServerIP, getNameServerIPLoop_first _ r hf, hr, ipToString_four]
    have hstep := @resolveLoop_glue transport dfuel (fuel + 1) ns domainName recordType buffer
      pkt _ ht hp ha hg (dottedDecimal_ne_empty a b c e)
    refine ⟨hstep, ?_⟩
    rw [hstep]
    have hq := resolveLoop_first_query transport dfuel fuel
      (toString a ++ "." ++ toString b ++ "." ++ toString c ++ "." ++ toString e)
      domainName recordType
    cases hqs : (resolveLoop transport dfuel (fuel + 1)
        (toString a ++ "." ++ toString b ++ "." ++ toString c ++ "." ++ toString e)
        domainName recordType).queries with
    | nil => rw [hqs] at hq; simp at hq
    | cons q qs =>
      rw [hqs] at hq
      simp only [List.head?_cons, Option.some.injEq] at hq
      simp [hq]

/-- C12, witness: an answer with the address 1.2.3.4 ends the resolution
after one query; `glueResponse`, which has a name server in its authorities
and its address 198.51.100.7 in its additionals, sends the second query to
that address. -/
theorem answer_then_glue_priority_witness :
    resolveLoop glueTransport 6 (0 + 1) "198.51.100.7" [97] "A" =
      ⟨[⟨"198.51.100.7", [97], "A"⟩], .ok ("1.2.3.4", none)⟩ ∧
    (resolveLoop glueTransport 6 (0 + 2) rootServer [97] "A").queries.take 2 =
      [⟨rootServer, [97], "A"⟩, ⟨"198.51.100.7", [97], "A"⟩] :=
  ⟨(answer_then_glue_priority glueTransport 6 0 "198.51.100.7" [97] "A"
      (answerResponse 0 1 0x80 0 [97] 0 1 0 1 0 0 0 60 1 2 3 4 [])
      ⟨⟨1, 0x8000, 1, 1, 0, 0⟩, [⟨[97, 46], 1, 1⟩], [⟨[97, 46], 1, 1, 60, [1, 2, 3, 4]⟩],
        [], []⟩
      ⟨[97, 46], 1, 1, 60, [1, 2, 3, 4]⟩ 1 2 3 4 rfl (by decide) rfl).1 (by decide),
   ((answer_then_glue_priority glueTransport 6 0 rootServer [97] "A" glueResponse
      ⟨⟨1, 0x8000, 1, 0, 1, 1⟩, [⟨[97, 46], 1, 1⟩], [],
        [⟨[97, 46], 2, 1, 60, [110, 46]⟩], [⟨[110, 46], 1, 1, 60, [198, 51, 100, 7]⟩]⟩
      ⟨[110, 46], 1, 1, 60, [198, 51, 100, 7]⟩ 198 51 100 7 rfl (by decide) rfl).2
      (by decide) (by decide)).2⟩

/-! ## C13: a nested resolution that fails -/

/-- C13, failing input: the root server answers the query for `a` with a
referral to the name server `n` only; the nested resolution of `n` fails
(with "no answer found" in `lostReferralTransport`, with a transport error in
`failedReferralTransport`).  The outer `resolve` does not return that
failure: it goes on with the empty string as name server, sends a third
query to it and returns the address it gets. -/
theorem nested_failure_is_dropped :
    parseDNSPacket 6 nsOnlyResponse =
      .ok ⟨⟨1, 0x8000, 1, 0, 1, 0⟩, [⟨[97, 46], 1, 1⟩], [],
        [⟨[97, 46], 2, 1, 60, [110, 46]⟩], []⟩ ∧
    resolve lostReferralTransport 6 2 [110] "A" =
      ⟨[⟨rootServer, [110], "A"⟩], .ok ("", some .noAnswerFound)⟩ ∧
    resolve lostReferralTransport 6 3 [97] "A" =
      ⟨[⟨rootServer, [97], "A"⟩, ⟨rootServer, [110], "A"⟩, ⟨"", [97], "A"⟩],
        .ok ("1.2.3.4", none)⟩ ∧
    resolve failedReferralTransport 6 2 [110] "A" =
      ⟨[⟨rootServer, [110], "A"⟩], .ok ("", some (.transport "unreachable"))⟩ ∧
    resolve failedReferralTransport 6 3 [97] "A" =
      ⟨[⟨rootServer, [97], "A"⟩, ⟨rootServer, [110], "A"⟩, ⟨"", [97], "A"⟩],
        .ok ("1.2.3.4", none)⟩ := by
  refine ⟨by decide, by decide, by decide, by decide, by decide⟩

/-! ## C14: a response with nothing to follow -/

/-- C14: when the decoded response has no type-A record in its answers, no
type-A record in its additionals and no type-NS record in its authorities,
the iteration of `resolve` ends the resolution: this query is the only one
sent, the result is the empty string and the error "no answer found". -/
theorem no_answer_found (transport : Transport) (dfuel fuel : Nat) (ns : String)
    (domainName : List Nat) (recordType : String) (buffer : List Nat) (pkt : DNSPacket)
    (ht : transport ns domainName recordType = .ok buffer)
    (hp : parseDNSPacket dfuel buffer = .ok pkt)
    (hans : ∀ x ∈ pkt.Answers, x.Type_ ≠ 1) (hadd : ∀ x ∈ pkt.Additional, x.Type_ ≠ 1)
    (hauth : ∀ x ∈ pkt.Authorities, x.Type_ ≠ 2) :
    resolveLoop transport dfuel (fuel + 1) ns domainName recordType =
      ⟨[⟨ns, domainName, recordType⟩], .ok ("", some .noAnswerFound)⟩ :=
  resolveLoop_nothing ht hp (getAnswerLoop_none _ hans) (getNameServerIPLoop_none _ hadd)
    (getNameServerLoop_none _ hauth)

/-- C14, witness: the root server sends twelve zero bytes, a response with
three empty sections. -/
theorem no_answer_found_witness :
    resolveLoop lostReferralTransport 0 (0 + 1) rootServer [110] "A" =
      ⟨[⟨rootServer, [110], "A"⟩], .ok ("", some .noAnswerFound)⟩ :=
  no_answer_found lostReferralTransport 0 0 rootServer [110] "A" emptyResponse
    ⟨⟨0, 0, 0, 0, 0, 0⟩, [], [], [], []⟩ rfl (by decide) (by decide) (by decide) (by decide)

/-! ## C15: pointers that point backwards -/

theorem loopBuffer_never_returns (fuel : Nat) :
    (∀ name m, decodeDNSNameLoop fuel loopBuffer name m 2 = .error .outOfFuel) ∧
    (∀ name m, decodeDNSNameLoop fuel loopBuffer name m 10 = .error .outOfFuel) ∧
    (∀ name m, decodeDNSNameLoop fuel loopBuffer name m 23 = .error .outOfFuel) ∧
    decodeCompressedName fuel 192 loopBuffer 10 = .error .outOfFuel ∧
    decodeCompressedName fuel 192 loopBuffer 23 = .error .outOfFuel := by
  induction fuel with
  | zero =>
    refine ⟨fun _ _ => ?_, fun _ _ => ?_, fun _ _ => ?_, ?_, ?_⟩ <;>
      first | rw [decodeDNSNameLoop] | rw [decodeCompressedName]
  | succ n ih =>
    obtain ⟨h2, h10, h23, c10, c23⟩ := ih
    have hlen : loopBuffer.length = 25 := by decide
    have g2 : loopBuffer.getD 2 0 = 20 := by decide
    have g10 : loopBuffer.getD 10 0 = 192 := by decide
    have g23 : loopBuffer.getD 23 0 = 192 := by decide
    have i11 : index loopBuffer (10 + 1) = .ok 2 := by decide
    have i24 : index loopBuffer (23 + 1) = .ok 10 := by decide
    have hs : ∃ l, slice loopBuffer (2 + 1) (2 + 1 + 20) = .ok l := ⟨_, slice_ok (by decide) (by decide)⟩
    obtain ⟨l, hl⟩ := hs
    refine ⟨fun name m => ?_, fun name m => ?_, fun name m => ?_, ?_, ?_⟩
    · rw [decodeDNSNameLoop_succ, hlen, if_pos (by decide), g2, if_neg (by decide),
        if_neg (by decide), hl]
      exact h23 _ _
    · rw [decodeDNSNameLoop_succ, hlen, if_pos (by decide), g10, if_neg (by decide),
        if_pos (by decide), c10]
    · rw [decodeDNSNameLoop_succ, hlen, if_pos (by decide), g23, if_neg (by decide),
        if_pos (by decide), c23]
    · rw [decodeCompressedName_succ, i11]
      have : ((192 &&& 0x3f) % 256 + 2) % 256 = 2 := by decide
      simp only [this, h2]
    · rw [decodeCompressedName_succ, i24]
      have : ((192 &&& 0x3f) % 256 + 10) % 256 = 10 := by decide
      simp only [this, h10]

/-- C15, counterexample: in `loopBuffer` every byte of 192 or more (at offsets
10 and 23) starts a pointer whose target (2 and 10, by the 14-bit offset and
by the offset the code computes) is strictly less than its own position, and
the label at offset 2 and both pointers lie inside the buffer; yet
`decodeDNSName` from offset 23 (or 10, or 2) returns with no amount of fuel:
the pointer at 23 leads to 10, the pointer at 10 to 2, and the label at 2
ends at 23. -/
theorem backward_pointers_can_loop :
    (∀ p ∈ List.range loopBuffer.length, 192 ≤ loopBuffer.getD p 0 →
      wireTarget loopBuffer p < p ∧ pointerTarget loopBuffer p < p) ∧
    nameOffsets loopBuffer [2, 10, 23] ∧
    ∀ fuel, decodeDNSName fuel loopBuffer 23 = .error .outOfFuel ∧
      decodeDNSName fuel loopBuffer 10 = .error .outOfFuel ∧
      decodeDNSName fuel loopBuffer 2 = .error .outOfFuel := by
  refine ⟨by decide, by decide, fun fuel => ?_⟩
  obtain ⟨h2, h10, h23, _, _⟩ := loopBuffer_never_returns fuel
  exact ⟨h23 _ _, h10 _ _, h2 _ _⟩

/-- Walking the labels from an offset of `S`: the walk ends at an offset that
is no label, and the loop of `decodeDNSName` returns from the start of the
walk as soon as it returns from its end. -/
theorem labelsEnd_walk (buffer S : List Nat) (hS : decoderOffsets buffer S) (n : Nat) :
    ∀ i, buffer.length ≤ n + i → (i ∈ S ∨ buffer.length ≤ i) →
      (labelsEnd n buffer i ∈ S ∨ buffer.length ≤ labelsEnd n buffer i) ∧
      ¬ (labelsEnd n buffer i < buffer.length ∧ 0 < buffer.getD (labelsEnd n buffer i) 0 ∧
          buffer.getD (labelsEnd n buffer i) 0 < 192) ∧
      ((∀ name m, ∃ fuel r,
          decodeDNSNameLoop fuel buffer name m (labelsEnd n buffer i) = .ok r) →
        ∀ name m, ∃ fuel r, decodeDNSNameLoop fuel buffer name m i = .ok r) := by
  induction n with
  | zero =>
    intro i hi hin
    rw [labelsEnd]
    exact ⟨hin, fun h => by omega, fun h => h⟩
  | succ k ih =>
    intro i hi hin
    rw [labelsEnd]
    by_cases hl : i < buffer.length ∧ 0 < buffer.getD i 0 ∧ buffer.getD i 0 < 192
    · rw [if_pos hl]
      have hiS : i ∈ S := by
        rcases hin with h | h
        · exact h
        · omega
      obtain ⟨_, hlab, _⟩ := hS i hiS
      obtain ⟨hinside, hnext⟩ := hlab ⟨hl.2.1, hl.2.2⟩
      obtain ⟨a, b, c⟩ := ih (i + (buffer.getD i 0 + 1)) (by omega) hnext
      refine ⟨a, b, fun hend name m => ?_⟩
      obtain ⟨fuel, r, hr⟩ := c hend (name ++ (buffer.drop (i + 1)).take (buffer.getD i 0) ++ [dot])
        (i + (buffer.getD i 0 + 1))
      refine ⟨fuel + 1, r, ?_⟩
      have hsl := @slice_ok buffer (i + 1) (i + 1 + buffer.getD i 0)
        (by omega) hinside
      rw [Nat.add_sub_cancel_left] at hsl
      rw [decodeDNSNameLoop_succ, if_pos hl.1, if_neg (by omega), if_neg (by omega), hsl]
      exact hr
    · rw [if_neg hl]
      exact ⟨hin, hl, fun h => h⟩

/-- The loop of `decodeDNSName` returns from every offset of `S` when the
labels at the target of every pointer end before the pointer. -/
theorem decodeDNSNameLoop_returns (buffer S : List Nat) (hS : decoderOffsets buffer S)
    (hend : ∀ p ∈ S, 192 ≤ buffer.getD p 0 →
      labelsEnd buffer.length buffer (pointerTarget buffer p) < p) (e : Nat) :
    ∀ i, (i ∈ S ∨ buffer.length ≤ i) → labelsEnd buffer.length buffer i ≤ e →
      ∀ name m, ∃ fuel r, decodeDNSNameLoop fuel buffer name m i = .ok r := by
  induction e using Nat.strong_induction_on with
  | _ e ih =>
    intro i hin hle
    obtain ⟨hmem, hnolabel, htransfer⟩ :=
      labelsEnd_walk buffer S hS buffer.length i (by omega) hin
    apply htransfer
    intro name m
    generalize labelsEnd buffer.length buffer i = z at hmem hnolabel hle
    by_cases hz : z < buffer.length
    · have hzS : z ∈ S := by
        rcases hmem with h | h
        · exact h
        · omega
      by_cases h0 : buffer.getD z 0 = 0
      · exact ⟨1, (name, m), by rw [decodeDNSNameLoop_succ, if_pos hz, if_pos h0]⟩
      · have h192 : 192 ≤ buffer.getD z 0 := by
          by_contra hc
          exact hnolabel ⟨hz, by omega, by omega⟩
        obtain ⟨_, _, hptr⟩ := hS z hzS
        obtain ⟨hsecond, htarget⟩ := hptr h192
        have hlt := hend z hzS h192
        obtain ⟨fuel, r, hr⟩ := ih (labelsEnd buffer.length buffer (pointerTarget buffer z))
          (by omega) (pointerTarget buffer z) htarget (Nat.le_refl _) [] 0
        have hidx : index buffer (z + 1) = .ok (buffer.getD (z + 1) 0) := by
          have : buffer[z + 1]? = some (buffer.getD (z + 1) 0) := by
            rw [List.getD_eq_getElem?_getD, List.getElem?_eq_getElem hsecond]
            rfl
          exact index_of_getElem? this
        refine ⟨fuel + 2, (name ++ r.1, z + 2), ?_⟩
        have hc : decodeCompressedName (fuel + 1) (buffer.getD z 0) buffer z = .ok r.1 := by
          rw [decodeCompressedName_succ, hidx]
          simp only
          rw [pointerTarget] at hr
          rw [hr]
        rw [decodeDNSNameLoop_succ, if_pos hz, if_neg h0, if_pos h192, hc]
    · exact ⟨1, (name, m), by rw [decodeDNSNameLoop_succ, if_neg hz]⟩

/-- On a pointer with first byte `C0` whose second byte is a byte, the offset
`decodeCompressedName` computes is the 14-bit offset. -/
theorem pointerTarget_eq_wireTarget {buffer : List Nat} {p : Nat}
    (h0 : buffer.getD p 0 = 0xC0) (h1 : buffer.getD (p + 1) 0 < 256) :
    pointerTarget buffer p = wireTarget buffer p := by
  have hz : (0xC0 &&& 0x3f) = 0 := by decide
  rw [pointerTarget, wireTarget, h0, hz]
  omega

/-- C15, amended: let `S` hold the offsets of the length bytes and pointers
that decoding can reach (`nameOffsets`: labels and pointers lie inside the
buffer).  If every pointer at an offset of `S` has the first byte `C0` (its
14-bit target is its second byte, below 256), a target strictly less than
its own position and, moreover, the run of labels that starts at the target
ends (in a zero byte, in a further pointer or at the end of the buffer)
strictly before the pointer, then `decodeDNSName` from every offset of `S`
returns a name, with some amount of fuel and with every larger one. -/
theorem decodeDNSName_terminates (buffer S : List Nat) (s : Nat) (hs : s ∈ S)
    (hS : nameOffsets buffer S)
    (hlow : ∀ p ∈ S, 192 ≤ buffer.getD p 0 →
      buffer.getD p 0 = 0xC0 ∧ buffer.getD (p + 1) 0 < 256)
    (hback : ∀ p ∈ S, 192 ≤ buffer.getD p 0 → wireTarget buffer p < p)
    (hend : ∀ p ∈ S, 192 ≤ buffer.getD p 0 →
      labelsEnd buffer.length buffer (wireTarget buffer p) < p) :
    ∃ fuel0 r, ∀ fuel, fuel0 ≤ fuel → decodeDNSName fuel buffer s = .ok r := by
  have _ := hback
  have heq : ∀ p ∈ S, 192 ≤ buffer.getD p 0 → pointerTarget buffer p = wireTarget buffer p :=
    fun p hp h => pointerTarget_eq_wireTarget (hlow p hp h).1 (hlow p hp h).2
  have hS2 : decoderOffsets buffer S := by
    intro p hp
    obtain ⟨a, b, c⟩ := hS p hp
    refine ⟨a, b, fun h => ?_⟩
    rw [heq p hp h]
    exact c h
  have hend2 : ∀ p ∈ S, 192 ≤ buffer.getD p 0 →
      labelsEnd buffer.length buffer (pointerTarget buffer p) < p := by
    intro p hp h
    rw [heq p hp h]
    exact hend p hp h
  obtain ⟨fuel0, r, hr⟩ := decodeDNSNameLoop_returns buffer S hS2 hend2
    (labelsEnd buffer.length buffer s) s (Or.inl hs) (Nat.le_refl _) [] 0
  exact ⟨fuel0, r, fun fuel hf => decodeDNSName_mono hr (by simp) fuel hf⟩

/-- C15, witness: in `referralBuffer` the pointers at offsets 19, 35 and 49
are `C0 0C`: they point to the question name at offset 12, which ends at
offset 14. -/
theorem decodeDNSName_terminates_witness :
    ∃ fuel0 r, ∀ fuel, fuel0 ≤ fuel → decodeDNSName fuel referralBuffer 47 = .ok r :=
  decodeDNSName_terminates referralBuffer [12, 14, 19, 35, 47, 49] 47 (by decide) (by decide)
    (by decide) (by decide) (by decide)

/-! ## C16: the header and the list lengths of a decoded message -/

theorem parseQuestions_length (n : Nat) :
    ∀ (buffer : List Nat) (c : Nat) (qs : List DNSQuestion) (l : Nat),
      parseQuestions n buffer c = .ok (qs, l) → qs.length = n := by
  induction n with
  | zero =>
    intro buffer c qs l h
    simp only [parseQuestions, Except.ok.injEq, Prod.mk.injEq] at h
    rw [← h.1]; rfl
  | succ k ih =>
    intro buffer c qs l h
    simp only [parseQuestions, bind, Except.bind, pure, Except.pure] at h
    cases hq : parseQuestion buffer c with
    | error e => rw [hq] at h; exact Except.noConfusion h
    | ok r =>
      rw [hq] at h
      simp only at h
      cases hr : parseQuestions k buffer r.2 with
      | error e => rw [hr] at h; exact Except.noConfusion h
      | ok r2 =>
        rw [hr] at h
        simp only [Except.ok.injEq, Prod.mk.injEq] at h
        rw [← h.1, List.length_cons, ih buffer r.2 r2.1 r2.2 hr]

theorem parseAnswers_length (fuel n : Nat) :
    ∀ (buffer : List Nat) (c : Nat) (rs : List DNSRecord) (l : Nat),
      parseAnswers fuel n buffer c = .ok (rs, l) → rs.length = n := by
  induction n with
  | zero =>
    intro buffer c rs l h
    simp only [parseAnswers, Except.ok.injEq, Prod.mk.injEq] at h
    rw [← h.1]; rfl
  | succ k ih =>
    intro buffer c rs l h
    simp only [parseAnswers, bind, Except.bind, pure, Except.pure] at h
    cases hq : parseRecord fuel buffer c with
    | error e => rw [hq] at h; exact Except.noConfusion h
    | ok r =>
      rw [hq] at h
      simp only at h
      cases hr : parseAnswers fuel k buffer (c + (r.2 + 1)) with
      | error e => rw [hr] at h; exact Except.noConfusion h
      | ok r2 =>
        rw [hr] at h
        simp only [Except.ok.injEq, Prod.mk.injEq] at h
        rw [← h.1, List.length_cons, ih buffer _ r2.1 r2.2 hr]

theorem parseRecords_length (fuel n : Nat) :
    ∀ (buffer : List Nat) (c : Nat) (rs : List DNSRecord) (l : Nat),
      parseRecords fuel n buffer c = .ok (rs, l) → rs.length = n := by
  induction n with
  | zero =>
    intro buffer c rs l h
    simp only [parseRecords, Except.ok.injEq, Prod.mk.injEq] at h
    rw [← h.1]; rfl
  | succ k ih =>
    intro buffer c rs l h
    simp only [parseRecords, bind, Except.bind, pure, Except.pure] at h
    cases hq : parseRecord fuel buffer c with
    | error e => rw [hq] at h; exact Except.noConfusion h
    | ok r =>
      rw [hq] at h
      simp only at h
      cases hr : parseRecords fuel k buffer r.2 with
      | error e => rw [hr] at h; exact Except.noConfusion h
      | ok r2 =>
        rw [hr] at h
        simp only [Except.ok.injEq, Prod.mk.injEq] at h
        rw [← h.1, List.length_cons, ih buffer _ r2.1 r2.2 hr]

/-- C16: when `parseDNSPacket` returns a message, its header is `parseHeader`
of the first 12 bytes, and its questions, answers, authorities and
additionals are as many as QDCOUNT, ANCOUNT, NSCOUNT and ARCOUNT say. -/
theorem parsed_lengths_match_counts (fuel : Nat) (buffer : List Nat) (pkt : DNSPacket)
    (h : parseDNSPacket fuel buffer = .ok pkt) :
    (slice buffer 0 12).bind parseHeader = .ok pkt.Header ∧
    pkt.questions.length = pkt.Header.NumbQuestions ∧
    pkt.Answers.length = pkt.Header.NumbAnswers ∧
    pkt.Authorities.length = pkt.Header.NumAuthority ∧
    pkt.Additional.length = pkt.Header.NumAdditional := by
  simp only [parseDNSPacket, bind, Except.bind, pure, Except.pure] at h
  cases hs : slice buffer 0 12 with
  | error e => rw [hs] at h; exact Except.noConfusion h
  | ok hb =>
    rw [hs] at h
    simp only at h
    cases hh : parseHeader hb with
    | error e => rw [hh] at h; exact Except.noConfusion h
    | ok hd =>
      rw [hh] at h
      simp only at h
      cases hq : parseQuestions hd.NumbQuestions buffer 12 with
      | error e => rw [hq] at h; exact Except.noConfusion h
      | ok rq =>
        rw [hq] at h
        simp only at h
        cases ha : parseAnswers fuel hd.NumbAnswers buffer rq.2 with
        | error e => rw [ha] at h; exact Except.noConfusion h
        | ok ra =>
          rw [ha] at h
          simp only at h
          cases hn : parseRecords fuel hd.NumAuthority buffer ra.2 with
          | error e => rw [hn] at h; exact Except.noConfusion h
          | ok rn =>
            rw [hn] at h
            simp only at h
            cases hx : parseRecords fuel hd.NumAdditional buffer rn.2 with
            | error e => rw [hx] at h; exact Except.noConfusion h
            | ok rx =>
              rw [hx] at h
              simp only [Except.ok.injEq] at h
              subst h
              refine ⟨?_, parseQuestions_length _ _ _ _ _ hq, parseAnswers_length _ _ _ _ _ _ ha,
                parseRecords_length _ _ _ _ _ _ hn, parseRecords_length _ _ _ _ _ _ hx⟩
              simp only [Except.bind, hh]

/-- C16, witness: the response `referralBuffer` with counts 1, 1, 1, 0. -/
theorem parsed_lengths_match_counts_witness :
    (slice referralBuffer 0 12).bind parseHeader = .ok ⟨0x1234, 0x8000, 1, 1, 1, 0⟩ ∧
    [(⟨[97, 46], 1, 1⟩ : DNSQuestion)].length = 1 ∧
    [(⟨[97, 46], 1, 1, 60, [1, 2, 3, 4]⟩ : DNSRecord)].length = 1 ∧
    [(⟨[], 0x1234, 0x8000, 0x10001, [0]⟩ : DNSRecord)].length = 1 ∧
    ([] : List DNSRecord).length = 0 :=
  parsed_lengths_match_counts 6 referralBuffer
    ⟨⟨0x1234, 0x8000, 1, 1, 1, 0⟩, [⟨[97, 46], 1, 1⟩],
      [⟨[97, 46], 1, 1, 60, [1, 2, 3, 4]⟩], [⟨[], 0x1234, 0x8000, 0x10001, [0]⟩], []⟩
    (by decide)

/-! ## C17: the data of a record, by type -/

/-- C17, failing input: `nsPlainBuffer` holds at offset 0 a record of type 2
whose fixed fields end at offset 13, where `decodeDNSName` returns the name
`x.`; `aPlainBuffer` holds a record of type 1 with the 4 data bytes 1, 2, 3, 4
at offsets 13 to 16.  The owner name `a` of both ends in a zero byte, so
`decodeDNSName` returns offset 2 instead of 3 and `parseRecord` reads the
fixed fields one byte early: type 0 and RDLENGTH 0 in both.  It returns
records with empty data and the next offset 12, not the name `x.` and 16, nor
the bytes 1, 2, 3, 4 and 17. -/
theorem record_data_after_plain_name :
    (slice nsPlainBuffer 3 13).bind decodeRecordData = .ok (2, 1, 256, 3) ∧
    decodeDNSName 2 nsPlainBuffer 13 = .ok ([120, 46], 15) ∧
    decodeDNSName 2 nsPlainBuffer 0 = .ok ([97, 46], 2) ∧
    parseRecord 2 nsPlainBuffer 0 = .ok (⟨[97, 46], 0, 512, 16777217, []⟩, 12) ∧
    (slice aPlainBuffer 3 13).bind decodeRecordData = .ok (1, 1, 256, 4) ∧
    slice aPlainBuffer 13 17 = .ok [1, 2, 3, 4] ∧
    parseRecord 2 aPlainBuffer 0 = .ok (⟨[97, 46], 0, 256, 16777217, []⟩, 12) ∧
    ∀ fuel, 2 ≤ fuel →
      parseRecord fuel nsPlainBuffer 0 = .ok (⟨[97, 46], 0, 512, 16777217, []⟩, 12) ∧
      parseRecord fuel aPlainBuffer 0 = .ok (⟨[97, 46], 0, 256, 16777217, []⟩, 12) := by
  refine ⟨by decide, by decide, by decide, by decide, by decide, by decide, by decide, ?_⟩
  intro fuel hf
  have hn : decodeDNSName 2 nsPlainBuffer 0 = .ok ([97, 46], 2) := by decide
  have ha : decodeDNSName 2 aPlainBuffer 0 = .ok ([97, 46], 2) := by decide
  have hn2 := decodeDNSName_mono hn (by simp) fuel hf
  have ha2 := decodeDNSName_mono ha (by simp) fuel hf
  constructor
  · simp only [parseRecord, hn2, bind, Except.bind]
    rfl
  · simp only [parseRecord, ha2, bind, Except.bind]
    rfl

/-! ## C18: following a referral without glue -/

/-- C18: one iteration of `resolve` on a decoded response with no type-A
record in its answers and additionals whose first type-NS authority has the
data `h` followed by a dot.  The nested resolution is `resolve` of `h` (one
trailing dot removed) with type "A": its first query goes to the root server
for `h`, type "A".  When it returns the string `ns2`, the outer run is its
query, the queries of the nested run, and the run of the loop with `ns2` as
name server, whose first query goes to `ns2` for the outer domain and
type. -/
theorem referral_resolves_name_server (transport : Transport) (dfuel fuel : Nat) (ns : String)
    (domainName : List Nat) (recordType : String) (buffer : List Nat) (pkt : DNSPacket)
    (r : DNSRecord) (h : List Nat) (ns2 : String) (err : Option GoError)
    (ht : transport ns domainName recordType = .ok buffer)
    (hp : parseDNSPacket dfuel buffer = .ok pkt)
    (hans : ∀ x ∈ pkt.Answers, x.Type_ ≠ 1) (hadd : ∀ x ∈ pkt.Additional, x.Type_ ≠ 1)
    (hauth : pkt.Authorities.find? (fun x => decide (x.Type_ = 2)) = some r)
    (hr : r.Data = h ++ [dot])
    (hnested : (resolve transport dfuel (fuel + 1) h "A").result = .ok (ns2, err)) :
    (resolve transport dfuel (fuel + 1) h "A").queries.head? = some ⟨rootServer, h, "A"⟩ ∧
    resolveLoop transport dfuel (fuel + 2) ns domainName recordType =
      ⟨⟨ns, domainName, recordType⟩ ::
          ((resolve transport dfuel (fuel + 1) h "A").queries ++
            (resolveLoop transport dfuel (fuel + 1) ns2 domainName recordType).queries),
        (resolveLoop transport dfuel (fuel + 1) ns2 domainName recordType).result⟩ ∧
    (resolveLoop transport dfuel (fuel + 1) ns2 domainName recordType).queries.head? =
      some ⟨ns2, domainName, recordType⟩ := by
  have hn : getNameServer pkt = h ++ [dot] := by
    rw [getNameServer, getNameServerLoop_first _ r hauth, hr]
  have hne : getNameServer pkt ≠ [] := by rw [hn]; simp
  have hstep := @resolveLoop_referral transport dfuel (fuel + 1) ns domainName recordType
    buffer pkt ht hp (getAnswerLoop_none _ hans)
    (getNameServerIPLoop_none _ hadd) hne
  rw [hn, trimSuffixDot_append_dot] at hstep
  rw [resolve] at hnested ⊢
  rw [hnested] at hstep
  exact ⟨resolveLoop_first_query _ _ _ _ _ _, hstep, resolveLoop_first_query _ _ _ _ _ _⟩

/-- C18, witness: in `referralTransport` the root server refers `a` to the
name server `n.`; the nested resolution asks the root server for `n`, type A,
and returns 9.9.9.9, to which the next query of the outer resolution goes;
the outer resolution returns 1.2.3.4 after these three queries. -/
theorem referral_resolves_name_server_witness :
    ((resolve referralTransport 6 (0 + 1) [110] "A").queries.head? =
        some ⟨rootServer, [110], "A"⟩ ∧
      resolveLoop referralTransport 6 (0 + 2) rootServer [97] "A" =
        ⟨⟨rootServer, [97], "A"⟩ ::
            ((resolve referralTransport 6 (0 + 1) [110] "A").queries ++
              (resolveLoop referralTransport 6 (0 + 1) "9.9.9.9" [97] "A").queries),
          (resolveLoop referralTransport 6 (0 + 1) "9.9.9.9" [97] "A").result⟩ ∧
      (resolveLoop referralTransport 6 (0 + 1) "9.9.9.9" [97] "A").queries.head? =
        some ⟨"9.9.9.9", [97], "A"⟩) ∧
    resolve referralTransport 6 2 [97] "A" =
      ⟨[⟨rootServer, [97], "A"⟩, ⟨rootServer, [110], "A"⟩, ⟨"9.9.9.9", [97], "A"⟩],
        .ok ("1.2.3.4", none)⟩ :=
  ⟨referral_resolves_name_server referralTransport 6 0 rootServer [97] "A" nsOnlyResponse
    ⟨⟨1, 0x8000, 1, 0, 1, 0⟩, [⟨[97, 46], 1, 1⟩], [], [⟨[97, 46], 2, 1, 60, [110, 46]⟩], []⟩
    ⟨[97, 46], 2, 1, 60, [110, 46]⟩ [110] "9.9.9.9" none rfl (by decide) (by decide)
    (by decide) (by decide) rfl (by decide), by decide⟩

/-! ## C19: decoding a query -/

theorem buildQuery_append (id : Nat) (domainName : List Nat) (recordType : String) :
    buildQuery id domainName recordType =
      headerToBytes ⟨id % 65536, 0, 1, 0, 0, 0⟩ ++ encodeParts (splitDot domainName) ++
        0 :: (dnsTypeMapGet recordType / 256 % 256) :: (dnsTypeMapGet recordType % 256) ::
          (1 / 256 % 256) :: (1 % 256) :: [] := by
  simp [buildQuery, questionToBytes, putUint16, encodeDNSName]

theorem length_headerToBytes (h : DNSHeader) : (headerToBytes h).length = 12 := by
  simp [headerToBytes, putUint16]

/-- C19: for every domain of one or more labels of 1 to 63 bytes, every
mnemonic of the type table (with its code) and every 16-bit id,
`parseDNSPacket` decodes the bytes of `buildQuery` (whatever the fuel) into
the header `id`, flags 0, counts 1, 0, 0, 0, one question with the domain
followed by a dot as QName, the code as QType and QClass 1, and no answers,
authorities or additionals. -/
theorem query_roundtrip (fuel id : Nat) (labels : List (List Nat)) (recordType : String)
    (code : Nat) (hid : id < 65536) (hmem : (recordType, code) ∈ dnsTypeMap)
    (hne : labels ≠ []) (hv : ∀ l ∈ labels, validLabel l) (hdot : ∀ l ∈ labels, dot ∉ l) :
    parseDNSPacket fuel (buildQuery id (joinDot labels) recordType) =
      .ok ⟨⟨id, 0, 1, 0, 0, 0⟩, [⟨joinDot labels ++ [dot], code, 1⟩], [], [], []⟩ := by
  obtain ⟨hget, hcode⟩ := dnsTypeMapGet_of_mem hmem
  have hidm : id % 65536 = id := Nat.mod_eq_of_lt hid
  have hlen := length_headerToBytes ⟨id, 0, 1, 0, 0, 0⟩
  have hs : slice (headerToBytes ⟨id, 0, 1, 0, 0, 0⟩ ++ encodeParts labels ++
      0 :: (code / 256 % 256) :: (code % 256) :: (1 / 256 % 256) :: (1 % 256) :: []) 0 12 =
      .ok (headerToBytes ⟨id, 0, 1, 0, 0, 0⟩) := by
    have := slice_mid [] (headerToBytes ⟨id, 0, 1, 0, 0, 0⟩) (encodeParts labels ++
      0 :: (code / 256 % 256) :: (code % 256) :: (1 / 256 % 256) :: (1 % 256) :: [])
    simpa [hlen] using this
  have hh : parseHeader (headerToBytes ⟨id, 0, 1, 0, 0, 0⟩) = .ok ⟨id, 0, 1, 0, 0, 0⟩ :=
    parseHeader_headerToBytes _ ⟨hid, by simp, by simp, by simp, by simp, by simp⟩
  have hq := parseQuestion_labels (headerToBytes ⟨id, 0, 1, 0, 0, 0⟩) [] labels
    (code / 256 % 256) (code % 256) (1 / 256 % 256) (1 % 256) hne
    (fun l hl => ⟨(hv l hl).1, by have := (hv l hl).2; omega⟩)
  rw [hlen] at hq
  have ht : code / 256 % 256 * 256 + code % 256 = code := by omega
  rw [buildQuery_append, splitDot_joinDot labels hne hdot, hget, hidm]
  simp only [parseDNSPacket, hs, hh, parseQuestions, hq, parseAnswers, parseRecords, bind,
    Except.bind, pure, Except.pure, dotted_eq_joinDot labels hne, ht]

/-- C19, witness: the query for `a.bc`, type MX, id 0xBEEF. -/
theorem query_roundtrip_witness :
    parseDNSPacket 0 (buildQuery 0xBEEF (joinDot [[97], [98, 99]]) "MX") =
      .ok ⟨⟨0xBEEF, 0, 1, 0, 0, 0⟩, [⟨joinDot [[97], [98, 99]] ++ [dot], 15, 1⟩],
        [], [], []⟩ :=
  query_roundtrip 0 0xBEEF [[97], [98, 99]] "MX" 15 (by decide) (by decide) (by decide)
    (by decide) (by decide)

/-! ## C20: the two name decoders on names without pointers -/

/-- The offset of `decodeDNSNameSimple` from the offset of `decodeDNSName`. -/
theorem simpleLoop_eq_loop (n : Nat) :
    ∀ (buffer name : List Nat) (m i : Nat), plainFrom n buffer i = true →
      decodeDNSNameSimpleLoop n buffer name m i =
        (decodeDNSNameLoop n buffer name m i).map (fun r => (r.1, r.2 + 1)) := by
  induction n with
  | zero =>
    intro buffer name m i _
    rw [decodeDNSNameSimpleLoop, decodeDNSNameLoop]
    rfl
  | succ k ih =>
    intro buffer name m i hp
    rw [plainFrom] at hp
    rw [decodeDNSNameSimpleLoop_succ, decodeDNSNameLoop_succ]
    by_cases h1 : i < buffer.length
    · rw [if_pos h1] at hp ⊢
      rw [if_pos h1]
      by_cases h2 : buffer.getD i 0 = 0
      · rw [if_pos h2, if_pos h2]; rfl
      · rw [if_neg h2] at hp ⊢
        rw [if_neg h2]
        by_cases h3 : buffer.getD i 0 ≥ 192
        · rw [if_pos h3] at hp
          exact absurd hp (by simp)
        · rw [if_neg h3] at hp ⊢
          by_cases h4 : i + 1 + buffer.getD i 0 ≤ buffer.length
          · rw [if_pos h4] at hp
            rw [slice_ok (by omega) h4]
            exact ih _ _ _ _ hp
          · rw [slice_error (by omega)]
            rfl
    · rw [if_neg h1, if_neg h1]; rfl

theorem decodeDNSName_plain {buffer : List Nat} {location fuel : Nat}
    (hp : plainFrom (buffer.length + 1) buffer location = true)
    (hf : buffer.length + 1 ≤ fuel) :
    decodeDNSNameSimple buffer location =
      (decodeDNSName fuel buffer location).map (fun r => (r.1, r.2 + 1)) := by
  have h := simpleLoop_eq_loop (buffer.length + 1) buffer [] 0 location hp
  have ht := decodeDNSNameSimple_total buffer location
  rw [decodeDNSNameSimple] at ht ⊢
  rw [h] at ht ⊢
  have hne : decodeDNSNameLoop (buffer.length + 1) buffer [] 0 location ≠ .error .outOfFuel := by
    intro hc
    rw [hc] at ht
    exact ht rfl
  rw [decodeDNSName, decodeDNSNameLoop_mono rfl hne fuel hf]

/-- C20: from a start offset at which the walk over the labels meets no
length byte of 192 or more (before the zero byte, the end of the buffer or
an out-of-bounds label), `decodeDNSNameSimple` and `decodeDNSName` (with fuel
`len(buffer) + 1` or more) fail together or return the same name, the offset
of the former being the offset of the latter plus 1; for a zero byte at the
start offset they return the empty name with offsets 1 and 0. -/
theorem decoders_agree_without_pointers (buffer : List Nat) (location fuel : Nat)
    (hp : plainFrom (buffer.length + 1) buffer location = true)
    (hf : buffer.length + 1 ≤ fuel) :
    decodeDNSNameSimple buffer location =
      (decodeDNSName fuel buffer location).map (fun r => (r.1, r.2 + 1)) ∧
    (decodeDNSName fuel buffer location = .error .outOfBounds ↔
      decodeDNSNameSimple buffer location = .error .outOfBounds) ∧
    (∀ name o, decodeDNSName fuel buffer location = .ok (name, o) ↔
      decodeDNSNameSimple buffer location = .ok (name, o + 1)) ∧
    (buffer[location]? = some 0 →
      decodeDNSNameSimple buffer location = .ok ([], 1) ∧
      decodeDNSName fuel buffer location = .ok ([], 0)) := by
  have h := decodeDNSName_plain hp hf
  refine ⟨h, ?_, ?_, ?_⟩
  · rw [h]
    cases decodeDNSName fuel buffer location with
    | error e => simp [Except.map]
    | ok r => simp [Except.map]
  · intro name o
    rw [h]
    cases decodeDNSName fuel buffer location with
    | error e => simp [Except.map]
    | ok r =>
      obtain ⟨a, b⟩ := r
      simp [Except.map]
  · intro hz
    obtain ⟨k, rfl⟩ : ∃ k, fuel = k + 1 := ⟨fuel - 1, by omega⟩
    have hd : decodeDNSName (k + 1) buffer location = .ok ([], 0) := by
      rw [decodeDNSName, decodeDNSNameLoop_succ, if_pos (lt_length_of_getElem? hz),
        getD_of_getElem? hz, if_pos rfl]
    refine ⟨?_, hd⟩
    rw [h, hd]
    rfl

/-- C20, witness: the name `a.bc` at offset 1 of an 8-byte buffer. -/
theorem decoders_agree_without_pointers_witness :
    decodeDNSNameSimple [0, 1, 97, 2, 98, 99, 0, 200] 1 =
      (decodeDNSName 9 [0, 1, 97, 2, 98, 99, 0, 200] 1).map (fun r => (r.1, r.2 + 1)) ∧
    (decodeDNSName 9 [0, 1, 97, 2, 98, 99, 0, 200] 1 = .error .outOfBounds ↔
      decodeDNSNameSimple [0, 1, 97, 2, 98, 99, 0, 200] 1 = .error .outOfBounds) ∧
    (∀ name o, decodeDNSName 9 [0, 1, 97, 2, 98, 99, 0, 200] 1 = .ok (name, o) ↔
      decodeDNSNameSimple [0, 1, 97, 2, 98, 99, 0, 200] 1 = .ok (name, o + 1)) ∧
    (([0, 1, 97, 2, 98, 99, 0, 200] : List Nat)[1]? = some 0 →
      decodeDNSNameSimple [0, 1, 97, 2, 98, 99, 0, 200] 1 = .ok ([], 1) ∧
      decodeDNSName 9 [0, 1, 97, 2, 98, 99, 0, 200] 1 = .ok ([], 0)) :=
  decoders_agree_without_pointers [0, 1, 97, 2, 98, 99, 0, 200] 1 9 (by decide) (by decide)

end DnsWeekend
